import Mathlib

/-!
# A shallow embedding of the Rust-Checklist core (`src/data.rs`, `src/tui.rs`)

The repository stores a hierarchical task list in an arena `Tree`:
a flat map `nodes : Uuid → Node`, a distinguished `root`, and a reverse
map `locations : Uuid → Uuid` from each non-root node to its parent.
Nodes are either `Container` (ordered list of child ids) or `Entry`
(four-state lifecycle).

Modelling conventions:
* `Uuid` is modelled as `Nat` (opaque identifier compared by equality).
* `HashMap` is modelled as an association list with insert-overwrite
  semantics (`mapInsert` removes any previous binding for the key);
  in-place mutation through a `&mut` borrow is modelled by `mapModify`,
  which rewrites the value stored at the key.
* A Rust method taking `&mut self` and returning `Result<T, String>` is
  modelled as a function `Tree → … → Tree × Except Err T`: the returned
  tree is the post-state (mutations performed before an early `?` return
  are kept, exactly as a `&mut` borrow keeps them).
* Error strings are modelled by the inductive `Err`; each constructor's
  doc comment quotes the `format!` string it stands for.
* `Vec::insert(pos, x)`, which panics when `pos > len`, is modelled by
  the fallible `vecInsert`; a panic is `none` (the call never returns),
  so `Tree.move_node` returns `Option (Tree × Except Err Unit)`.
-/

namespace Checklist

/-- Equality of `Except` results is decidable (needed to evaluate the
embedded operations on concrete inputs inside proofs). -/
instance {ε α : Type} [DecidableEq ε] [DecidableEq α] :
    DecidableEq (Except ε α)
  | .error a, .error b =>
    if h : a = b then .isTrue (by rw [h])
    else .isFalse (fun he => h (by cases he; rfl))
  | .error _, .ok _ => .isFalse (fun he => Except.noConfusion he)
  | .ok _, .error _ => .isFalse (fun he => Except.noConfusion he)
  | .ok a, .ok b =>
    if h : a = b then .isTrue (by rw [h])
    else .isFalse (fun he => h (by cases he; rfl))

/-- Rust `Uuid`, modelled as a natural number compared by equality. -/
abbrev Id := Nat

/-- `struct NodeMeta { id, name, desc }` from `data.rs`. -/
structure NodeMeta where
  id : Id
  name : String
  desc : String
deriving Repr, DecidableEq

/-- `enum EntryState { Pending, InProgress, Completed, Canceled }`. -/
inductive EntryState where
  | pending
  | inProgress
  | completed
  | canceled
deriving Repr, DecidableEq

/-- `EntryState::next`: the four-state ring, one step forward. -/
def EntryState.next : EntryState → EntryState
  | .pending => .inProgress
  | .inProgress => .completed
  | .completed => .canceled
  | .canceled => .pending

/-- `EntryState::prev`: the four-state ring, one step back. -/
def EntryState.prev : EntryState → EntryState
  | .pending => .canceled
  | .inProgress => .pending
  | .completed => .inProgress
  | .canceled => .completed

/-- `struct Entry { meta, state }`. -/
structure Entry where
  meta : NodeMeta
  state : EntryState
deriving Repr, DecidableEq

/-- `Entry::new` creates a fresh entry in state `Pending` (the identifier
inside `meta` is a fresh random Uuid in the source; here it is a parameter). -/
def Entry.mk_new (id : Id) (name desc : String) : Entry :=
  { meta := { id := id, name := name, desc := desc }, state := .pending }

/-- `struct Container { meta, order }`: `order` lists the direct children. -/
structure Container where
  meta : NodeMeta
  order : List Id
deriving Repr, DecidableEq

/-- `Container::new` creates a container with an empty `order`. -/
def Container.mk_new (id : Id) (name desc : String) : Container :=
  { meta := { id := id, name := name, desc := desc }, order := [] }

/-- `enum Node { Entry(Entry), Container(Container) }`. -/
inductive Node where
  | entry (e : Entry)
  | container (c : Container)
deriving Repr, DecidableEq

/-- `Node::get_entry`. -/
def Node.get_entry : Node → Option Entry
  | .entry e => some e
  | _ => none

/-- `Node::get_container`. -/
def Node.get_container : Node → Option Container
  | .container c => some c
  | _ => none

/-- `Node::meta` (shared accessor over the two variants). -/
def Node.meta : Node → NodeMeta
  | .entry e => e.meta
  | .container c => c.meta

/-- `Node::get_id`. -/
def Node.get_id (n : Node) : Id :=
  n.meta.id

/-- The child list a node contributes: a container's `order`, nothing for
an entry.  Used to state the tree invariants. -/
def Node.childIds : Node → List Id
  | .container c => c.order
  | .entry _ => []

/-- `Container::add_order`: `self.order.push(*id)`. -/
def Container.add_order (c : Container) (id : Id) : Container :=
  { c with order := c.order ++ [id] }

/-- `Container::remove_order`: `self.order.retain(|x| x != id)`. -/
def Container.remove_order (c : Container) (id : Id) : Container :=
  { c with order := c.order.filter (fun x => x ≠ id) }

/-- Rust `Vec::insert(pos, x)`: shifts the suffix right; PANICS when
`pos > len`, which is modelled by `none`. -/
def vecInsert : List Id → Nat → Id → Option (List Id)
  | l, 0, x => some (x :: l)
  | [], _ + 1, _ => none
  | a :: l, n + 1, x => (vecInsert l n x).map (fun r => a :: r)

/-- `Container::move_order`: retain everything but `id`, then
`Vec::insert(pos, id)` (which panics — `none` — when `pos` exceeds the
length after removal). -/
def Container.move_order (c : Container) (id : Id) (pos : Nat) :
    Option Container :=
  (vecInsert (c.order.filter (fun x => x ≠ id)) pos id).map
    (fun o => { c with order := o })

/-- Rust `Iterator::position`: index of the first element satisfying the
predicate. -/
def listPosition {α : Type} (p : α → Bool) : List α → Option Nat
  | [] => none
  | x :: xs => if p x then some 0 else (listPosition p xs).map (fun n => n + 1)

/-- `Container::swap_order`: if both ids occur, `Vec::swap` the two
positions found by `Iterator::position` (first occurrences); otherwise a
no-op. -/
def Container.swap_order (c : Container) (id1 id2 : Id) : Container :=
  match listPosition (fun x => x = id1) c.order,
      listPosition (fun y => y = id2) c.order with
  | some i, some j =>
      { c with order := ((c.order.set i (c.order.getD j 0)).set j
          (c.order.getD i 0)) }
  | _, _ => c

/-- The error strings returned by the source, one constructor per
`format!` template. -/
inductive Err where
  /-- "Node {id} not found" -/
  | nodeNotFound (id : Id)
  /-- "Node {id} must be an entry" -/
  | wrongKindEntry (id : Id)
  /-- "Node {id} must be a container" -/
  | wrongKindContainer (id : Id)
  /-- "Root node doesn't have parent container" -/
  | noParent
  /-- "Parent id not found" -/
  | parentNotFound
  /-- "Can only swap nodes with the same parent" -/
  | differentParents
  /-- "Cannot swap a node with itself" -/
  | selfSwap
  /-- "Node already is inside of container {id}" -/
  | alreadyInContainer (id : Id)
deriving Repr, DecidableEq

/-- Association-list model of `HashMap`: lookup by first matching key. -/
def mapLookup {α : Type} (m : List (Id × α)) (k : Id) : Option α :=
  (m.find? (fun p => p.1 = k)).map (fun p => p.2)

/-- `HashMap::insert`: overwrite any previous binding of `k`. -/
def mapInsert {α : Type} (m : List (Id × α)) (k : Id) (v : α) :
    List (Id × α) :=
  (k, v) :: m.filter (fun p => p.1 ≠ k)

/-- `HashMap::remove`. -/
def mapRemove {α : Type} (m : List (Id × α)) (k : Id) : List (Id × α) :=
  m.filter (fun p => p.1 ≠ k)

/-- Mutation through a `&mut` borrow of the value stored at `k`. -/
def mapModify {α : Type} (m : List (Id × α)) (k : Id) (f : α → α) :
    List (Id × α) :=
  m.map (fun p => if p.1 = k then (p.1, f p.2) else p)

/-- `struct Tree { root, nodes, locations }`. -/
structure Tree where
  root : Id
  nodes : List (Id × Node)
  locations : List (Id × Id)
deriving Repr, DecidableEq

namespace Tree

/-- `Tree::new(root: Container)`. -/
def mk_new (root : Container) : Tree :=
  { root := root.meta.id
    nodes := [(root.meta.id, Node.container root)]
    locations := [] }

/-- `Tree::get_node`. -/
def get_node (t : Tree) (node_id : Id) : Except Err Node :=
  match mapLookup t.nodes node_id with
  | some n => .ok n
  | none => .error (.nodeNotFound node_id)

/-- `Tree::get_entry`. -/
def get_entry (t : Tree) (node_id : Id) : Except Err Entry :=
  match t.get_node node_id with
  | .error e => .error e
  | .ok n =>
    match n.get_entry with
    | some e => .ok e
    | none => .error (.wrongKindEntry node_id)

/-- `Tree::get_container`. -/
def get_container (t : Tree) (node_id : Id) : Except Err Container :=
  match t.get_node node_id with
  | .error e => .error e
  | .ok n =>
    match n.get_container with
    | some c => .ok c
    | none => .error (.wrongKindContainer node_id)

/-- `Tree::get_parent_id`. -/
def get_parent_id (t : Tree) (node_id : Id) : Except Err Id :=
  if node_id = t.root then .error .noParent
  else
    match mapLookup t.locations node_id with
    | some p => .ok p
    | none => .error .parentNotFound

/-- `Tree::compare_parents`. -/
def compare_parents (t : Tree) (node_id1 node_id2 : Id) :
    Except Err Bool :=
  match t.get_parent_id node_id1 with
  | .error e => .error e
  | .ok p1 =>
    match t.get_parent_id node_id2 with
    | .error e => .error e
    | .ok p2 => .ok (p1 = p2)

/-- Write back a node mutated through a `&mut` borrow at key `k`. -/
def setNode (t : Tree) (k : Id) (n : Node) : Tree :=
  { t with nodes := mapModify t.nodes k (fun _ => n) }

/-- `Tree::add_node`: resolve `parent_id` as a container, push the node's
id onto its `order`, then `nodes.insert` and `locations.insert` (both
overwriting silently — the source performs no freshness check). -/
def add_node (t : Tree) (parent_id : Id) (node : Node) :
    Tree × Except Err Unit :=
  let node_id := node.get_id
  match t.get_container parent_id with
  | .error e => (t, .error e)
  | .ok c =>
    let t1 := t.setNode parent_id (.container (c.add_order node_id))
    ({ t1 with
        nodes := mapInsert t1.nodes node_id node
        locations := mapInsert t1.locations node_id parent_id },
      .ok ())

/-- `Tree::remove_node`: resolve the parent container, remove the id from
its `order`, then erase the node from `nodes` and `locations`.  Children
of a removed container are NOT touched. -/
def remove_node (t : Tree) (node_id : Id) : Tree × Except Err Unit :=
  match t.get_parent_id node_id with
  | .error e => (t, .error e)
  | .ok parent_id =>
    match t.get_container parent_id with
    | .error e => (t, .error e)
    | .ok c =>
      let t1 := t.setNode parent_id (.container (c.remove_order node_id))
      ({ t1 with
          nodes := mapRemove t1.nodes node_id
          locations := mapRemove t1.locations node_id },
        .ok ())

/-- `Tree::move_node`: reposition `node_id` inside its parent's `order`
via `Container::move_order`; `none` is the `Vec::insert` panic. -/
def move_node (t : Tree) (node_id : Id) (new_pos : Nat) :
    Option (Tree × Except Err Unit) :=
  match t.get_parent_id node_id with
  | .error e => some (t, .error e)
  | .ok parent_id =>
    match t.get_container parent_id with
    | .error e => some (t, .error e)
    | .ok c =>
      match c.move_order node_id new_pos with
      | none => none
      | some c' => some (t.setNode parent_id (.container c'), .ok ())

/-- `Tree::swap_nodes`: `compare_parents` first (so two roots fail with
`noParent`, not `selfSwap`), then the self-swap check, then
`Container::swap_order` on the shared parent. -/
def swap_nodes (t : Tree) (node_id1 node_id2 : Id) :
    Tree × Except Err Unit :=
  match t.compare_parents node_id1 node_id2 with
  | .error e => (t, .error e)
  | .ok same =>
    if ¬ same then (t, .error .differentParents)
    else if node_id1 = node_id2 then (t, .error .selfSwap)
    else
      match t.get_parent_id node_id1 with
      | .error e => (t, .error e)
      | .ok parent_id =>
        match t.get_container parent_id with
        | .error e => (t, .error e)
        | .ok c =>
          (t.setNode parent_id (.container (c.swap_order node_id1 node_id2)),
            .ok ())

/-- `Tree::change_parent`: after the `AlreadyInContainer` guard the old
parent's `order` is mutated FIRST; only then is `new_parent_id` resolved,
so a resolution failure there returns an error on an already-mutated
tree. -/
def change_parent (t : Tree) (new_parent_id node_id : Id) :
    Tree × Except Err Unit :=
  match t.get_parent_id node_id with
  | .error e => (t, .error e)
  | .ok parent_id =>
    if parent_id = new_parent_id then
      (t, .error (.alreadyInContainer parent_id))
    else
      match t.get_container parent_id with
      | .error e => (t, .error e)
      | .ok c =>
        let t1 := t.setNode parent_id (.container (c.remove_order node_id))
        match t1.get_container new_parent_id with
        | .error e => (t1, .error e)
        | .ok nc =>
          let t2 := t1.setNode new_parent_id (.container (nc.add_order node_id))
          ({ t2 with
              locations := mapInsert (mapRemove t2.locations node_id)
                node_id new_parent_id },
            .ok ())

/-- `Tree::get_children_ids` (takes `&mut self` in the source but never
mutates, so it is modelled as a pure query). -/
def get_children_ids (t : Tree) (parent_id : Id) :
    Except Err (List Id) :=
  match t.get_container parent_id with
  | .error e => .error e
  | .ok c => .ok c.order

/-- `Tree::entry_state`. -/
def entry_state (t : Tree) (node_id : Id) : Except Err EntryState :=
  match t.get_entry node_id with
  | .error e => .error e
  | .ok e => .ok e.state

/-- `Tree::set_entry_state`: assigns `entry.state = state.clone()`. -/
def set_entry_state (t : Tree) (node_id : Id) (state : EntryState) :
    Tree × Except Err Unit :=
  match t.get_entry node_id with
  | .error e => (t, .error e)
  | .ok e =>
    (t.setNode node_id (.entry { e with state := state }), .ok ())

/-- `Tree::entry_state_next`: the source evaluates `entry.state.next()`
as a bare expression statement — `EntryState::next` takes `&self` and
RETURNS the successor, so the computed value is discarded and the stored
state is never written.  The method then returns a borrow of the
(unchanged) `entry.state`. -/
def entry_state_next (t : Tree) (node_id : Id) :
    Tree × Except Err EntryState :=
  match t.get_entry node_id with
  | .error e => (t, .error e)
  | .ok e =>
    let _discarded := e.state.next
    (t, .ok e.state)

/-- `Tree::entry_state_prev`: same shape as `entry_state_next`, the value
of `entry.state.prev()` is computed and discarded. -/
def entry_state_prev (t : Tree) (node_id : Id) :
    Tree × Except Err EntryState :=
  match t.get_entry node_id with
  | .error e => (t, .error e)
  | .ok e =>
    let _discarded := e.state.prev
    (t, .ok e.state)

end Tree

/-- `struct TreeViewState { selected, collapsed, scroll_offset }` from
`tui.rs`; the `HashSet` of collapsed ids is modelled as a list queried by
membership. -/
structure TreeViewState where
  selected : Option Id
  collapsed : List Id
  scroll_offset : Nat
deriving Repr, DecidableEq

/-- `TreeViewState::is_collapsed`: `self.collapsed.contains(id)`. -/
def TreeViewState.is_collapsed (v : TreeViewState) (id : Id) : Bool :=
  v.collapsed.contains id

/-- The `for child_id in children` loop of `build_visible_nodes`: run
`visit` (the recursive call, passed as a parameter) on each child in
order, propagating the first error or fuel exhaustion. -/
def build_visible_children
    (visit : Id → Nat → List (Id × Nat) →
      Option (List (Id × Nat) × Except Err Unit)) :
    List Id → Nat → List (Id × Nat) →
      Option (List (Id × Nat) × Except Err Unit)
  | [], _, out => some (out, .ok ())
  | c :: rest, depth, out =>
    match visit c depth out with
    | none => none
    | some (out', .error e) => some (out', .error e)
    | some (out', .ok _) => build_visible_children visit rest depth out'

/-- `build_visible_nodes` from `tui.rs`: push `(current_id, depth)` onto
`out`, stop at collapsed nodes, otherwise recurse over
`get_children_ids` (whose error aborts the traversal via `?`, leaving
the pushed prefix in `out`).  The recursion of the source is not
structurally bounded (a cyclic tree would diverge), so the model takes a
fuel parameter; `none` means the fuel ran out. -/
def build_visible_nodes (fuel : Nat) (t : Tree) (view : TreeViewState) :
    Id → Nat → List (Id × Nat) →
      Option (List (Id × Nat) × Except Err Unit) :=
  match fuel with
  | 0 => fun _ _ _ => none
  | fuel' + 1 => fun current_id depth out =>
    let out1 := out ++ [(current_id, depth)]
    if view.is_collapsed current_id then some (out1, .ok ())
    else
      match t.get_children_ids current_id with
      | .error e => some (out1, .error e)
      | .ok children =>
        build_visible_children (build_visible_nodes fuel' t view)
          children (depth + 1) out1

/-! ## The tree invariants (§3 of the specification) -/

/-- The `order` stored at `k`, when `k` holds a container. -/
def containerOrderAt (t : Tree) (k : Id) : Option (List Id) :=
  match mapLookup t.nodes k with
  | some (.container c) => some c.order
  | _ => none

/-- Invariant 2's per-entry check: `p` holds a container whose `order`
contains `k` exactly once. -/
def orderCountOne (t : Tree) (p k : Id) : Bool :=
  match containerOrderAt t p with
  | some o => o.count k == 1
  | none => false

/-- Invariant 1: the root is present in `nodes` and is a Container. -/
def Inv1 (t : Tree) : Prop :=
  (containerOrderAt t t.root).isSome = true

/-- Invariant 2: every `locations` entry `k ↦ p` points at a container
present in `nodes` whose `order` contains `k` exactly once. -/
def Inv2 (t : Tree) : Prop :=
  ∀ kp ∈ t.locations, orderCountOne t kp.2 kp.1 = true

/-- Invariant 3: every id listed in any container's `order` has that
container recorded as its location and is present in `nodes`. -/
def Inv3 (t : Tree) : Prop :=
  ∀ kn ∈ t.nodes, ∀ id ∈ Node.childIds kn.2,
    mapLookup t.locations id = some kn.1 ∧
    (mapLookup t.nodes id).isSome = true

/-- Invariant 4: `{root} ∪ keys(locations) = keys(nodes)` (with
`root ∈ keys(nodes)` supplied by invariant 1). -/
def Inv4 (t : Tree) : Prop :=
  (∀ kn ∈ t.nodes, kn.1 = t.root ∨
    (mapLookup t.locations kn.1).isSome = true) ∧
  (∀ kp ∈ t.locations, (mapLookup t.nodes kp.1).isSome = true)

/-- Invariants 1–4 of the data model together. -/
def Inv (t : Tree) : Prop :=
  Inv1 t ∧ Inv2 t ∧ Inv3 t ∧ Inv4 t

instance (t : Tree) : Decidable (Inv1 t) :=
  inferInstanceAs (Decidable ((containerOrderAt t t.root).isSome = true))

instance (t : Tree) : Decidable (Inv2 t) :=
  inferInstanceAs (Decidable (∀ kp ∈ t.locations,
    orderCountOne t kp.2 kp.1 = true))

instance (t : Tree) : Decidable (Inv3 t) :=
  inferInstanceAs (Decidable (∀ kn ∈ t.nodes, ∀ id ∈ Node.childIds kn.2,
    mapLookup t.locations id = some kn.1 ∧
    (mapLookup t.nodes id).isSome = true))

instance (t : Tree) : Decidable (Inv4 t) :=
  inferInstanceAs (Decidable ((∀ kn ∈ t.nodes, kn.1 = t.root ∨
    (mapLookup t.locations kn.1).isSome = true) ∧
    (∀ kp ∈ t.locations, (mapLookup t.nodes kp.1).isSome = true)))

instance (t : Tree) : Decidable (Inv t) :=
  inferInstanceAs (Decidable (Inv1 t ∧ Inv2 t ∧ Inv3 t ∧ Inv4 t))

/-! ## Sequences of structural mutations -/

/-- One structural mutation call. -/
inductive Op where
  | add (parent_id : Id) (node : Node)
  | remove (node_id : Id)
  | move (node_id : Id) (new_pos : Nat)
  | swap (node_id1 node_id2 : Id)

/-- Execute one call (`none` is the `move_node` panic). -/
def applyOp (t : Tree) : Op → Option (Tree × Except Err Unit)
  | .add p n => some (t.add_node p n)
  | .remove id => some (t.remove_node id)
  | .move id pos => t.move_node id pos
  | .swap a b => some (t.swap_nodes a b)

/-- Run a sequence of calls, requiring every call to succeed. -/
def runOps : Tree → List Op → Option Tree
  | t, [] => some t
  | t, op :: ops =>
    match applyOp t op with
    | some (t', .ok _) => runOps t' ops
    | _ => none

/-- A node handed to `add_node` is freshly constructed: its identifier is
not yet bound in the tree, and (being built by `Entry::new` or
`Container::new`) it has no children of its own. -/
def NodeFresh (t : Tree) (n : Node) : Prop :=
  mapLookup t.nodes n.get_id = none ∧ Node.childIds n = []

/-- No node records `node_id` as its parent. -/
def Childless (t : Tree) (node_id : Id) : Prop :=
  ∀ kp ∈ t.locations, kp.2 ≠ node_id

instance (t : Tree) (n : Node) : Decidable (NodeFresh t n) :=
  inferInstanceAs (Decidable (mapLookup t.nodes n.get_id = none ∧
    Node.childIds n = []))

instance (t : Tree) (node_id : Id) : Decidable (Childless t node_id) :=
  inferInstanceAs (Decidable (∀ kp ∈ t.locations, kp.2 ≠ node_id))

/-- A run of successful structural mutations in which every added node is
fresh and every removed node is childless. -/
inductive GoodRun : Tree → List Op → Tree → Prop
  | nil (t : Tree) : GoodRun t [] t
  | add {t t1 t2 : Tree} {p : Id} {n : Node} {ops : List Op} :
      NodeFresh t n → t.add_node p n = (t1, .ok ()) →
      GoodRun t1 ops t2 → GoodRun t (.add p n :: ops) t2
  | remove {t t1 t2 : Tree} {id : Id} {ops : List Op} :
      Childless t id → t.remove_node id = (t1, .ok ()) →
      GoodRun t1 ops t2 → GoodRun t (.remove id :: ops) t2
  | move {t t1 t2 : Tree} {id : Id} {pos : Nat} {ops : List Op} :
      t.move_node id pos = some (t1, .ok ()) →
      GoodRun t1 ops t2 → GoodRun t (.move id pos :: ops) t2
  | swap {t t1 t2 : Tree} {a b : Id} {ops : List Op} :
      t.swap_nodes a b = (t1, .ok ()) →
      GoodRun t1 ops t2 → GoodRun t (.swap a b :: ops) t2

/-! ## Concrete fixtures for the closed scenario theorems -/

/-- Scenario root container `R`, identifier 0. -/
def rootC : Container := Container.mk_new 0 "R" ""

/-- Scenario container `A`, identifier 1. -/
def contA : Container := Container.mk_new 1 "A" ""

/-- Scenario entry `E`, identifier 2. -/
def entE : Entry := Entry.mk_new 2 "E" ""

/-- The tree holding only the root container. -/
def t0 : Tree := Tree.mk_new rootC

/-- Root `R` with container `A` below it. -/
def t1 : Tree := (t0.add_node 0 (.container contA)).1

/-- Root `R`, container `A` below it, entry `E` below `A`. -/
def t2 : Tree := (t1.add_node 1 (.entry entE)).1

/-- A view with nothing collapsed. -/
def emptyView : TreeViewState := { selected := none, collapsed := [], scroll_offset := 0 }

/-- A view with container `A` (id 1) collapsed. -/
def collView : TreeViewState := { selected := none, collapsed := [1], scroll_offset := 0 }

/-- Root `R` with the single entry 1 below it. -/
def tEa : Tree := (t0.add_node 0 (.entry (Entry.mk_new 1 "e1" ""))).1

/-- Root `R` with two entries (ids 1 and 2) directly below it. -/
def tE : Tree := (tEa.add_node 0 (.entry (Entry.mk_new 2 "e2" ""))).1

/-- The root container of `tE` as stored: order `[1, 2]`. -/
def rootC12 : Container := { meta := rootC.meta, order := [1, 2] }

/-- `tE` after swapping entries 1 and 2 (root order `[2, 1]`). -/
def tEs : Tree := (tE.swap_nodes 1 2).1

/-- `tEs` after moving entry 1 back to position 0 (root order `[1, 2]`). -/
def tEm : Tree := ((tEs.move_node 1 0).getD (tEs, .ok ())).1

/-- `tEm` after removing entry 2. -/
def tEr : Tree := (tEm.remove_node 2).1

/-! ## Association-map lemmas -/

theorem mapLookup_cons {α : Type} (a : Id × α) (m : List (Id × α)) (k : Id) :
    mapLookup (a :: m) k = if a.1 = k then some a.2 else mapLookup m k := by
  by_cases h : a.1 = k <;> simp [mapLookup, List.find?_cons, h]

theorem mapLookup_filter_ne {α : Type} (m : List (Id × α)) (k k' : Id)
    (h : k' ≠ k) :
    mapLookup (m.filter (fun p => p.1 ≠ k)) k' = mapLookup m k' := by
  induction m with
  | nil => rfl
  | cons a m ih =>
    rw [List.filter_cons]
    by_cases ha : a.1 = k
    · rw [if_neg (by simp [ha]), ih, mapLookup_cons,
        if_neg (by rw [ha]; exact fun hk => h hk.symm)]
    · rw [if_pos (by simp [ha]), mapLookup_cons, mapLookup_cons, ih]

theorem mapLookup_filter_self {α : Type} (m : List (Id × α)) (k : Id) :
    mapLookup (m.filter (fun p => p.1 ≠ k)) k = none := by
  induction m with
  | nil => rfl
  | cons a m ih =>
    rw [List.filter_cons]
    by_cases ha : a.1 = k
    · rw [if_neg (by simp [ha])]; exact ih
    · rw [if_pos (by simp [ha]), mapLookup_cons, if_neg ha]; exact ih

theorem mapLookup_mapInsert_self {α : Type} (m : List (Id × α)) (k : Id)
    (v : α) : mapLookup (mapInsert m k v) k = some v := by
  unfold mapInsert
  rw [mapLookup_cons, if_pos rfl]

theorem mapLookup_mapInsert_ne {α : Type} (m : List (Id × α)) (k k' : Id)
    (v : α) (h : k' ≠ k) :
    mapLookup (mapInsert m k v) k' = mapLookup m k' := by
  unfold mapInsert
  rw [mapLookup_cons, if_neg (fun hk => h hk.symm)]
  exact mapLookup_filter_ne m k k' h

theorem mapLookup_mapRemove_self {α : Type} (m : List (Id × α)) (k : Id) :
    mapLookup (mapRemove m k) k = none :=
  mapLookup_filter_self m k

theorem mapLookup_mapRemove_ne {α : Type} (m : List (Id × α)) (k k' : Id)
    (h : k' ≠ k) : mapLookup (mapRemove m k) k' = mapLookup m k' :=
  mapLookup_filter_ne m k k' h

theorem mapLookup_mapModify_self {α : Type} (m : List (Id × α)) (k : Id)
    (f : α → α) :
    mapLookup (mapModify m k f) k = (mapLookup m k).map f := by
  induction m with
  | nil => rfl
  | cons a m ih =>
    unfold mapModify at ih ⊢
    by_cases ha : a.1 = k
    · rw [List.map_cons, if_pos ha, mapLookup_cons, mapLookup_cons]
      simp [ha]
    · rw [List.map_cons, if_neg ha, mapLookup_cons, mapLookup_cons,
        if_neg ha, if_neg ha]
      exact ih

theorem mapLookup_mapModify_ne {α : Type} (m : List (Id × α)) (k k' : Id)
    (f : α → α) (h : k' ≠ k) :
    mapLookup (mapModify m k f) k' = mapLookup m k' := by
  induction m with
  | nil => rfl
  | cons a m ih =>
    unfold mapModify at ih ⊢
    by_cases ha : a.1 = k
    · have ha' : a.1 ≠ k' := by rw [ha]; exact fun hk => h hk.symm
      rw [List.map_cons, if_pos ha, mapLookup_cons, mapLookup_cons,
        if_neg ha', if_neg ha']
      exact ih
    · rw [List.map_cons, if_neg ha, mapLookup_cons, mapLookup_cons]
      exact if_congr Iff.rfl rfl ih

theorem isSome_mapLookup_mapModify {α : Type} (m : List (Id × α)) (k x : Id)
    (f : α → α) :
    (mapLookup (mapModify m k f) x).isSome = (mapLookup m x).isSome := by
  by_cases hx : x = k
  · subst hx; rw [mapLookup_mapModify_self]; cases mapLookup m x <;> rfl
  · rw [mapLookup_mapModify_ne m k x f hx]

theorem mapLookup_mem {α : Type} {m : List (Id × α)} {k : Id} {v : α}
    (h : mapLookup m k = some v) : (k, v) ∈ m := by
  unfold mapLookup at h
  cases hf : m.find? (fun p => p.1 = k) with
  | none => rw [hf] at h; simp at h
  | some p =>
    rw [hf] at h
    have hv : p.2 = v := by simpa using h
    have hp := List.find?_some hf
    have hm := List.mem_of_find?_eq_some hf
    simp only [decide_eq_true_eq] at hp
    cases p with
    | mk p1 p2 => cases hp; cases hv; exact hm

theorem mem_mapInsert_iff {α : Type} (m : List (Id × α)) (k : Id) (v : α)
    (p : Id × α) :
    p ∈ mapInsert m k v ↔ p = (k, v) ∨ (p ∈ m ∧ p.1 ≠ k) := by
  simp [mapInsert, List.mem_filter]

theorem mem_mapRemove_iff {α : Type} (m : List (Id × α)) (k : Id)
    (p : Id × α) : p ∈ mapRemove m k ↔ p ∈ m ∧ p.1 ≠ k := by
  simp [mapRemove, List.mem_filter]

theorem mem_mapModify_iff {α : Type} (m : List (Id × α)) (k : Id) (f : α → α)
    (p : Id × α) :
    p ∈ mapModify m k f ↔
      ∃ q ∈ m, p = if q.1 = k then (q.1, f q.2) else q := by
  simp only [mapModify, List.mem_map]
  constructor
  · rintro ⟨q, hq, rfl⟩; exact ⟨q, hq, rfl⟩
  · rintro ⟨q, hq, rfl⟩; exact ⟨q, hq, rfl⟩

theorem keys_mapModify {α : Type} (m : List (Id × α)) (k : Id) (f : α → α) :
    (mapModify m k f).map Prod.fst = m.map Prod.fst := by
  induction m with
  | nil => rfl
  | cons a m ih =>
    by_cases ha : a.1 = k <;> simp [mapModify, ha, ih] <;>
      simpa [mapModify] using ih

/-! ## Resolution lemmas -/

theorem get_container_ok_iff (t : Tree) (k : Id) (c : Container) :
    t.get_container k = .ok c ↔
      mapLookup t.nodes k = some (.container c) := by
  unfold Tree.get_container Tree.get_node
  cases h : mapLookup t.nodes k with
  | none => simp
  | some n => cases n <;> simp [Node.get_container]

theorem get_entry_ok_iff (t : Tree) (k : Id) (e : Entry) :
    t.get_entry k = .ok e ↔ mapLookup t.nodes k = some (.entry e) := by
  unfold Tree.get_entry Tree.get_node
  cases h : mapLookup t.nodes k with
  | none => simp
  | some n => cases n <;> simp [Node.get_entry]

theorem get_parent_id_ok_iff (t : Tree) (k p : Id) :
    t.get_parent_id k = .ok p ↔
      k ≠ t.root ∧ mapLookup t.locations k = some p := by
  unfold Tree.get_parent_id
  by_cases hr : k = t.root
  · simp [hr]
  · cases h : mapLookup t.locations k with
    | none => simp [hr, h]
    | some q => simp [hr, h]

/-! ## Characterization equations for the operations -/

theorem setNode_root (t : Tree) (k : Id) (n : Node) :
    (t.setNode k n).root = t.root := rfl

theorem setNode_locations (t : Tree) (k : Id) (n : Node) :
    (t.setNode k n).locations = t.locations := rfl

theorem setNode_nodes (t : Tree) (k : Id) (n : Node) :
    (t.setNode k n).nodes = mapModify t.nodes k (fun _ => n) := rfl

theorem add_node_error {t : Tree} {p : Id} {e : Err} (n : Node)
    (hc : t.get_container p = .error e) :
    t.add_node p n = (t, .error e) := by
  unfold Tree.add_node; simp only [hc]

theorem add_node_ok {t : Tree} {p : Id} {c : Container} (n : Node)
    (hc : t.get_container p = .ok c) :
    t.add_node p n =
      ({ root := t.root
         nodes := mapInsert (mapModify t.nodes p
           (fun _ => .container (c.add_order n.get_id))) n.get_id n
         locations := mapInsert t.locations n.get_id p }, .ok ()) := by
  unfold Tree.add_node Tree.setNode; simp only [hc]

theorem remove_node_error1 {t : Tree} {id : Id} {e : Err}
    (hp : t.get_parent_id id = .error e) :
    t.remove_node id = (t, .error e) := by
  unfold Tree.remove_node; simp only [hp]

theorem remove_node_error2 {t : Tree} {id p : Id} {e : Err}
    (hp : t.get_parent_id id = .ok p) (hc : t.get_container p = .error e) :
    t.remove_node id = (t, .error e) := by
  unfold Tree.remove_node; simp only [hp, hc]

theorem remove_node_ok {t : Tree} {id p : Id} {c : Container}
    (hp : t.get_parent_id id = .ok p) (hc : t.get_container p = .ok c) :
    t.remove_node id =
      ({ root := t.root
         nodes := mapRemove (mapModify t.nodes p
           (fun _ => .container (c.remove_order id))) id
         locations := mapRemove t.locations id }, .ok ()) := by
  unfold Tree.remove_node Tree.setNode; simp only [hp, hc]

theorem move_node_error1 {t : Tree} {id : Id} {e : Err} (pos : Nat)
    (hp : t.get_parent_id id = .error e) :
    t.move_node id pos = some (t, .error e) := by
  unfold Tree.move_node; simp only [hp]

theorem move_node_error2 {t : Tree} {id p : Id} {e : Err} (pos : Nat)
    (hp : t.get_parent_id id = .ok p) (hc : t.get_container p = .error e) :
    t.move_node id pos = some (t, .error e) := by
  unfold Tree.move_node; simp only [hp, hc]

theorem move_node_panic {t : Tree} {id p : Id} {c : Container} {pos : Nat}
    (hp : t.get_parent_id id = .ok p) (hc : t.get_container p = .ok c)
    (hm : c.move_order id pos = none) :
    t.move_node id pos = none := by
  unfold Tree.move_node; simp only [hp, hc, hm]

theorem move_node_ok {t : Tree} {id p : Id} {c c' : Container} {pos : Nat}
    (hp : t.get_parent_id id = .ok p) (hc : t.get_container p = .ok c)
    (hm : c.move_order id pos = some c') :
    t.move_node id pos = some (t.setNode p (.container c'), .ok ()) := by
  unfold Tree.move_node; simp only [hp, hc, hm]

theorem swap_nodes_error_cp {t : Tree} {a b : Id} {e : Err}
    (hcp : t.compare_parents a b = .error e) :
    t.swap_nodes a b = (t, .error e) := by
  unfold Tree.swap_nodes; simp only [hcp]

theorem swap_nodes_different {t : Tree} {a b : Id}
    (hcp : t.compare_parents a b = .ok false) :
    t.swap_nodes a b = (t, .error .differentParents) := by
  unfold Tree.swap_nodes; simp [hcp]

theorem swap_nodes_self {t : Tree} {a b : Id}
    (hcp : t.compare_parents a b = .ok true) (hab : a = b) :
    t.swap_nodes a b = (t, .error .selfSwap) := by
  subst hab; unfold Tree.swap_nodes; simp [hcp]

theorem swap_nodes_error_p {t : Tree} {a b : Id} {e : Err}
    (hcp : t.compare_parents a b = .ok true) (hab : a ≠ b)
    (hp : t.get_parent_id a = .error e) :
    t.swap_nodes a b = (t, .error e) := by
  unfold Tree.swap_nodes; simp [hcp, hab, hp]

theorem swap_nodes_error_c {t : Tree} {a b p : Id} {e : Err}
    (hcp : t.compare_parents a b = .ok true) (hab : a ≠ b)
    (hp : t.get_parent_id a = .ok p) (hc : t.get_container p = .error e) :
    t.swap_nodes a b = (t, .error e) := by
  unfold Tree.swap_nodes; simp [hcp, hab, hp, hc]

theorem swap_nodes_ok {t : Tree} {a b p : Id} {c : Container}
    (hcp : t.compare_parents a b = .ok true) (hab : a ≠ b)
    (hp : t.get_parent_id a = .ok p) (hc : t.get_container p = .ok c) :
    t.swap_nodes a b =
      (t.setNode p (.container (c.swap_order a b)), .ok ()) := by
  unfold Tree.swap_nodes; simp [hcp, hab, hp, hc]

theorem change_parent_error1 {t : Tree} {id : Id} {e : Err} (np : Id)
    (hp : t.get_parent_id id = .error e) :
    t.change_parent np id = (t, .error e) := by
  unfold Tree.change_parent; simp only [hp]

theorem change_parent_already {t : Tree} {id p : Id}
    (hp : t.get_parent_id id = .ok p) :
    t.change_parent p id = (t, .error (.alreadyInContainer p)) := by
  unfold Tree.change_parent; simp [hp]

theorem change_parent_error2 {t : Tree} {id p np : Id} {e : Err}
    (hp : t.get_parent_id id = .ok p) (hne : p ≠ np)
    (hc : t.get_container p = .error e) :
    t.change_parent np id = (t, .error e) := by
  unfold Tree.change_parent; simp [hp, hne, hc]

theorem change_parent_error3 {t : Tree} {id p np : Id} {e : Err}
    {c : Container}
    (hp : t.get_parent_id id = .ok p) (hne : p ≠ np)
    (hc : t.get_container p = .ok c)
    (hnc : (t.setNode p (.container (c.remove_order id))).get_container np =
      .error e) :
    t.change_parent np id =
      (t.setNode p (.container (c.remove_order id)), .error e) := by
  unfold Tree.change_parent; simp [hp, hne, hc, hnc]

theorem change_parent_ok {t : Tree} {id p np : Id} {c nc : Container}
    (hp : t.get_parent_id id = .ok p) (hne : p ≠ np)
    (hc : t.get_container p = .ok c)
    (hnc : (t.setNode p (.container (c.remove_order id))).get_container np =
      .ok nc) :
    t.change_parent np id =
      ({ ((t.setNode p (.container (c.remove_order id))).setNode np
            (.container (nc.add_order id))) with
          locations := mapInsert (mapRemove t.locations id) id np },
        .ok ()) := by
  unfold Tree.change_parent; simp [hp, hne, hc, hnc, setNode_locations]

theorem set_entry_state_error {t : Tree} {id : Id} {e : Err}
    (s : EntryState) (he : t.get_entry id = .error e) :
    t.set_entry_state id s = (t, .error e) := by
  unfold Tree.set_entry_state; simp only [he]

theorem set_entry_state_ok {t : Tree} {id : Id} {en : Entry}
    (s : EntryState) (he : t.get_entry id = .ok en) :
    t.set_entry_state id s =
      (t.setNode id (.entry { en with state := s }), .ok ()) := by
  unfold Tree.set_entry_state; simp only [he]

/-- `entry_state_next` never changes the tree at all (the successor value
is computed and discarded in the source). -/
theorem entry_state_next_fst (t : Tree) (id : Id) :
    (t.entry_state_next id).1 = t := by
  unfold Tree.entry_state_next
  cases t.get_entry id <;> rfl

/-- `entry_state_prev` never changes the tree at all. -/
theorem entry_state_prev_fst (t : Tree) (id : Id) :
    (t.entry_state_prev id).1 = t := by
  unfold Tree.entry_state_prev
  cases t.get_entry id <;> rfl

/-! ## Claim theorems -/

/-- C8: the `EntryState` ring is closed and `next`/`prev` are mutually
inverse total functions: `prev (next s) = s`, `next (prev s) = s`, and
four applications of `next` return to `s`. -/
theorem c8_ring_closure (s : EntryState) :
    s.next.prev = s ∧ s.prev.next = s ∧ s.next.next.next.next = s := by
  cases s <;> exact ⟨rfl, rfl, rfl⟩

/-- C1 (evaluation at the failing input): in the source,
`entry_state_next` evaluates `entry.state.next()` as a bare statement —
`EntryState::next` returns the successor without mutating, so the value
is discarded and the stored state never changes.  On the fresh entry `E`
(id 2, state `Pending`) of `t2`, one call returns `Pending` and leaves
the tree unchanged, and three chained calls still leave the state
`Pending` (the claim expects `Canceled`). -/
theorem c1_entry_state_next_noop_eval :
    (t2.entry_state_next 2).1 = t2 ∧
    (t2.entry_state_next 2).2 = .ok .pending ∧
    ((((t2.entry_state_next 2).1.entry_state_next 2).1.entry_state_next
      2).1.entry_state 2) = .ok .pending ∧
    (t2.entry_state_prev 2).1 = t2 ∧
    (t2.entry_state_prev 2).2 = .ok .pending :=
  ⟨rfl, rfl, rfl, rfl, rfl⟩

/-- C4 (evaluation at the failing input): on the scenario tree
(`R` = 0, `A` = 1, `E` = 2) the children queries match the claim, and the
traversal with `A` collapsed returns `Ok` with `[(R,0),(A,1)]`; but with
an empty collapse set `build_visible_nodes` reaches the entry `E`, calls
`get_children_ids` on it, and aborts with the `WrongKind` error ("Node 2
must be a container") instead of returning `Ok` — the visible pairs
`[(R,0),(A,1),(E,2)]` are left in `out` but the call fails. -/
theorem c4_visible_sequence_eval :
    t2.get_children_ids 0 = .ok [1] ∧
    t2.get_children_ids 1 = .ok [2] ∧
    build_visible_nodes 10 t2 emptyView 0 0 [] =
      some ([(0, 0), (1, 1), (2, 2)], .error (.wrongKindContainer 2)) ∧
    build_visible_nodes 10 t2 collView 0 0 [] =
      some ([(0, 0), (1, 1)], .ok ()) :=
  ⟨rfl, rfl, rfl, rfl⟩

/-- C9: the entry-state operations are frame-preserving — whether they
succeed or fail, `set_entry_state` leaves the root, the whole `locations`
map, the key list of `nodes`, every other node's binding, every
container's `order`, and every node's metadata unchanged (only the target
entry's `state` may change), while `entry_state_next` and
`entry_state_prev` leave the tree entirely unchanged. -/
theorem c9_entry_ops_frame (t : Tree) (node_id : Id) (s : EntryState) :
    ((t.set_entry_state node_id s).1.root = t.root) ∧
    ((t.set_entry_state node_id s).1.locations = t.locations) ∧
    ((t.set_entry_state node_id s).1.nodes.map Prod.fst =
      t.nodes.map Prod.fst) ∧
    (∀ k, k ≠ node_id →
      mapLookup (t.set_entry_state node_id s).1.nodes k =
        mapLookup t.nodes k) ∧
    (∀ k, containerOrderAt (t.set_entry_state node_id s).1 k =
      containerOrderAt t k) ∧
    (∀ k, (mapLookup (t.set_entry_state node_id s).1.nodes k).map Node.meta =
      (mapLookup t.nodes k).map Node.meta) ∧
    ((t.entry_state_next node_id).1 = t) ∧
    ((t.entry_state_prev node_id).1 = t) := by
  cases he : t.get_entry node_id with
  | error err =>
    rw [set_entry_state_error s he]
    exact ⟨rfl, rfl, rfl, fun _ _ => rfl, fun _ => rfl, fun _ => rfl,
      entry_state_next_fst t node_id, entry_state_prev_fst t node_id⟩
  | ok e =>
    have hl : mapLookup t.nodes node_id = some (.entry e) :=
      (get_entry_ok_iff t node_id e).1 he
    rw [set_entry_state_ok s he]
    refine ⟨rfl, rfl, ?_, ?_, ?_, ?_,
      entry_state_next_fst t node_id, entry_state_prev_fst t node_id⟩
    · show (mapModify t.nodes node_id
        (fun _ => Node.entry { e with state := s })).map Prod.fst = _
      exact keys_mapModify _ _ _
    · intro k hk
      show mapLookup (mapModify t.nodes node_id
        (fun _ => Node.entry { e with state := s })) k = _
      exact mapLookup_mapModify_ne t.nodes node_id k _ hk
    · intro k
      by_cases hk : k = node_id
      · subst hk
        unfold containerOrderAt Tree.setNode
        rw [mapLookup_mapModify_self, hl]
        rfl
      · unfold containerOrderAt Tree.setNode
        rw [mapLookup_mapModify_ne t.nodes node_id k _ hk]
    · intro k
      by_cases hk : k = node_id
      · subst hk
        show (mapLookup (mapModify t.nodes k
            (fun _ => Node.entry { e with state := s })) k).map Node.meta = _
        rw [mapLookup_mapModify_self, hl]
        rfl
      · show (mapLookup (mapModify t.nodes node_id
            (fun _ => Node.entry { e with state := s })) k).map Node.meta = _
        rw [mapLookup_mapModify_ne t.nodes node_id k _ hk]

/-- C9 witness: the frame theorem applied to the concrete tree `t2`,
target entry 2, discharging the `k ≠ node_id` hypothesis at `k = 1`. -/
theorem c9_entry_ops_frame_witness :
    (t2.set_entry_state 2 .completed).1.locations = t2.locations ∧
    mapLookup (t2.set_entry_state 2 .completed).1.nodes 1 =
      mapLookup t2.nodes 1 :=
  ⟨(c9_entry_ops_frame t2 2 .completed).2.1,
    (c9_entry_ops_frame t2 2 .completed).2.2.2.1 1 (by decide)⟩

/-- C2 counterexample: `change_parent(new_parent_id := 1, node_id := 2)`
on the tree with entries 1 and 2 under the root returns an error (node 1
is an Entry, not a Container) yet leaves the tree mutated: node 2 was
already removed from the root's `order` before the failing resolution. -/
theorem c2_change_parent_not_atomic :
    (tE.change_parent 1 2).2 = .error (.wrongKindContainer 1) ∧
    (tE.change_parent 1 2).1 ≠ tE :=
  ⟨rfl, by decide⟩

/-- C2 (amended): every mutation operation except `change_parent` is
atomic on failure — an error return leaves the tree exactly as it was.
`change_parent` on error either leaves the tree unchanged or (exactly
when `new_parent_id` fails to resolve to a container after the earlier
checks passed) leaves the tree as before except that `node_id` has been
removed from its old parent's `order`. -/
theorem c2_atomic_on_error (t : Tree) :
    (∀ p n e, (t.add_node p n).2 = .error e → (t.add_node p n).1 = t) ∧
    (∀ id e, (t.remove_node id).2 = .error e → (t.remove_node id).1 = t) ∧
    (∀ id pos t' e, t.move_node id pos = some (t', .error e) → t' = t) ∧
    (∀ a b e, (t.swap_nodes a b).2 = .error e → (t.swap_nodes a b).1 = t) ∧
    (∀ id s e, (t.set_entry_state id s).2 = .error e →
      (t.set_entry_state id s).1 = t) ∧
    (∀ id e, (t.entry_state_next id).2 = .error e →
      (t.entry_state_next id).1 = t) ∧
    (∀ id e, (t.entry_state_prev id).2 = .error e →
      (t.entry_state_prev id).1 = t) ∧
    (∀ np id e, (t.change_parent np id).2 = .error e →
      (t.change_parent np id).1 = t ∨
      ∃ p c, t.get_parent_id id = .ok p ∧
        mapLookup t.nodes p = some (.container c) ∧
        (t.change_parent np id).1 =
          t.setNode p (.container (c.remove_order id))) := by
  refine ⟨?_, ?_, ?_, ?_, ?_, ?_, ?_, ?_⟩
  · intro p n e h
    cases hc : t.get_container p with
    | error err => rw [add_node_error n hc]
    | ok c => rw [add_node_ok n hc] at h; simp at h
  · intro id e h
    cases hp : t.get_parent_id id with
    | error err => rw [remove_node_error1 hp]
    | ok p =>
      cases hc : t.get_container p with
      | error err => rw [remove_node_error2 hp hc]
      | ok c => rw [remove_node_ok hp hc] at h; simp at h
  · intro id pos t' e h
    cases hp : t.get_parent_id id with
    | error err =>
      rw [move_node_error1 pos hp] at h
      simp at h
      exact h.1.symm
    | ok p =>
      cases hc : t.get_container p with
      | error err =>
        rw [move_node_error2 pos hp hc] at h
        simp at h
        exact h.1.symm
      | ok c =>
        cases hm : c.move_order id pos with
        | none =>
          rw [move_node_panic hp hc hm] at h
          exact Option.noConfusion h
        | some c' => rw [move_node_ok hp hc hm] at h; simp at h
  · intro a b e h
    cases hcp : t.compare_parents a b with
    | error err => rw [swap_nodes_error_cp hcp]
    | ok same =>
      cases same with
      | false => rw [swap_nodes_different hcp]
      | true =>
        by_cases hab : a = b
        · rw [swap_nodes_self hcp hab]
        · cases hp : t.get_parent_id a with
          | error err => rw [swap_nodes_error_p hcp hab hp]
          | ok p =>
            cases hc : t.get_container p with
            | error err => rw [swap_nodes_error_c hcp hab hp hc]
            | ok c => rw [swap_nodes_ok hcp hab hp hc] at h; simp at h
  · intro id s e h
    cases he : t.get_entry id with
    | error err => rw [set_entry_state_error s he]
    | ok en => rw [set_entry_state_ok s he] at h; simp at h
  · intro id e h
    exact entry_state_next_fst t id
  · intro id e h
    exact entry_state_prev_fst t id
  · intro np id e h
    cases hp : t.get_parent_id id with
    | error err => left; rw [change_parent_error1 np hp]
    | ok p =>
      by_cases heq : p = np
      · subst heq; left; rw [change_parent_already hp]
      · cases hc : t.get_container p with
        | error err => left; rw [change_parent_error2 hp heq hc]
        | ok c =>
          cases hnc : (t.setNode p
              (.container (c.remove_order id))).get_container np with
          | error err =>
            right
            refine ⟨p, c, rfl, (get_container_ok_iff t p c).1 hc, ?_⟩
            rw [change_parent_error3 hp heq hc hnc]
          | ok nc => rw [change_parent_ok hp heq hc hnc] at h; simp at h

/-- C2 witness: the amended atomicity theorem applied to the concrete
tree `t0` — `add_node` with the absent parent 5 fails and leaves the
tree untouched. -/
theorem c2_atomic_on_error_witness :
    (t0.add_node 5 (.entry entE)).1 = t0 :=
  (c2_atomic_on_error t0).1 5 (.entry entE) (.nodeNotFound 5) (by decide)

/-! ## `Vec::insert` bounds (for C5) -/

theorem vecInsert_le (l : List Id) (pos : Nat) (x : Id)
    (h : pos ≤ l.length) :
    vecInsert l pos x = some (l.take pos ++ x :: l.drop pos) := by
  induction l generalizing pos with
  | nil =>
    cases pos with
    | zero => rfl
    | succ n => simp at h
  | cons a l ih =>
    cases pos with
    | zero => rfl
    | succ n =>
      have hn : n ≤ l.length := by simpa using h
      simp [vecInsert, ih n hn]

theorem vecInsert_gt (l : List Id) (pos : Nat) (x : Id)
    (h : l.length < pos) : vecInsert l pos x = none := by
  induction l generalizing pos with
  | nil =>
    cases pos with
    | zero => exact absurd h (by simp)
    | succ n => rfl
  | cons a l ih =>
    cases pos with
    | zero => exact absurd h (by simp)
    | succ n =>
      have hn : l.length < n := by simpa using h
      simp [vecInsert, ih n hn]

theorem move_order_some {c : Container} {id : Id} {pos : Nat}
    (h : pos ≤ (c.order.filter (fun x => x ≠ id)).length) :
    c.move_order id pos = some { c with order :=
      (c.order.filter (fun x => x ≠ id)).take pos ++ id ::
      (c.order.filter (fun x => x ≠ id)).drop pos } := by
  unfold Container.move_order
  rw [vecInsert_le _ _ _ h]
  rfl

theorem move_order_none {c : Container} {id : Id} {pos : Nat}
    (h : (c.order.filter (fun x => x ≠ id)).length < pos) :
    c.move_order id pos = none := by
  unfold Container.move_order
  rw [vecInsert_gt _ _ _ h]
  rfl

theorem get_children_ids_eq {t : Tree} {p : Id} {c : Container}
    (hc : t.get_container p = .ok c) :
    t.get_children_ids p = .ok c.order := by
  unfold Tree.get_children_ids; simp only [hc]

/-- C5: `move_node` (via `move_order`) first removes `node_id` from its
parent's `order`, then inserts it at index `new_pos` (`Vec::insert`,
shifting the suffix).  When `new_pos` exceeds the length of the order
after the removal the insertion is out of bounds: the implementation
does not clamp and the call panics instead of completing (modelled as
`none`), so the operation is total only under
`new_pos ≤ length after removal`. -/
theorem c5_move_node_bounds (t : Tree) (node_id : Id) (new_pos : Nat)
    (p : Id) (c : Container)
    (hp : t.get_parent_id node_id = .ok p)
    (hc : t.get_container p = .ok c) :
    (new_pos ≤ (c.order.filter (fun x => x ≠ node_id)).length →
      t.move_node node_id new_pos =
        some (t.setNode p (.container { c with order :=
          (c.order.filter (fun x => x ≠ node_id)).take new_pos ++ node_id ::
          (c.order.filter (fun x => x ≠ node_id)).drop new_pos }),
          .ok ())) ∧
    ((c.order.filter (fun x => x ≠ node_id)).length < new_pos →
      t.move_node node_id new_pos = none) := by
  constructor
  · intro h
    exact move_node_ok hp hc (move_order_some h)
  · intro h
    exact move_node_panic hp hc (move_order_none h)

/-- C5 witness: on `tE`, moving node 1 to position 5 (out of bounds:
after removal the root order has length 1) panics, while moving node 2
to position 0 succeeds; both via the bounds theorem. -/
theorem c5_move_node_bounds_witness :
    tE.move_node 1 5 = none ∧
    tE.move_node 2 0 =
      some (tE.setNode 0 (.container { rootC12 with order := [2, 1] }),
        .ok ()) :=
  ⟨(c5_move_node_bounds tE 1 5 0 rootC12 (by decide) (by decide)).2
      (by decide),
    (c5_move_node_bounds tE 2 0 0 rootC12 (by decide) (by decide)).1
      (by decide)⟩

/-- C7: round-trip of insertion — for a node with a fresh identifier
(one that is not a key of `nodes`, not the root, and not listed in the
parent's `order`) added under a container parent, `add_node` succeeds,
`get_parent_id` immediately returns the insertion parent, and the
parent's `get_children_ids` contains the new identifier exactly once. -/
theorem c7_add_node_round_trip (t : Tree) (parent_id : Id) (n : Node)
    (c : Container)
    (hc : mapLookup t.nodes parent_id = some (.container c))
    (hfresh : mapLookup t.nodes n.get_id = none)
    (hroot : n.get_id ≠ t.root)
    (horder : n.get_id ∉ c.order) :
    (t.add_node parent_id n).2 = .ok () ∧
    (t.add_node parent_id n).1.get_parent_id n.get_id = .ok parent_id ∧
    ∃ l, (t.add_node parent_id n).1.get_children_ids parent_id = .ok l ∧
      l.count n.get_id = 1 := by
  have hgc : t.get_container parent_id = .ok c :=
    (get_container_ok_iff t parent_id c).2 hc
  have hne : n.get_id ≠ parent_id := by
    intro he
    rw [he, hc] at hfresh
    exact Option.noConfusion hfresh
  rw [add_node_ok n hgc]
  refine ⟨rfl, ?_, ?_⟩
  · rw [get_parent_id_ok_iff]
    refine ⟨hroot, ?_⟩
    show mapLookup (mapInsert t.locations n.get_id parent_id) n.get_id =
      some parent_id
    exact mapLookup_mapInsert_self _ _ _
  · refine ⟨c.order ++ [n.get_id], ?_, ?_⟩
    · apply get_children_ids_eq (c := c.add_order n.get_id)
      rw [get_container_ok_iff]
      show mapLookup (mapInsert (mapModify t.nodes parent_id
        (fun _ => Node.container (c.add_order n.get_id))) n.get_id n)
          parent_id = _
      rw [mapLookup_mapInsert_ne _ _ _ _ (fun h => hne h.symm),
        mapLookup_mapModify_self, hc]
      rfl
    · rw [List.count_append, List.count_eq_zero.2 horder]
      simp

/-- C7 witness: the round-trip theorem applied to adding container `A`
(fresh id 1) under the root of `t0`. -/
theorem c7_add_node_round_trip_witness :
    (t0.add_node 0 (.container contA)).2 = .ok () ∧
    (t0.add_node 0 (.container contA)).1.get_parent_id 1 = .ok 0 :=
  ⟨(c7_add_node_round_trip t0 0 (.container contA) rootC (by decide)
      (by decide) (by decide) (by decide)).1,
    (c7_add_node_round_trip t0 0 (.container contA) rootC (by decide)
      (by decide) (by decide) (by decide)).2.1⟩

/-- C10 counterexample: adding a node whose identifier equals the
(existing) root/parent identifier 0 succeeds and silently overwrites the
root container with the new entry — afterwards node 0 holds no `order`
at all, so the claim's "the identifier is appended to `parent_id`'s
order" is false at this input. -/
theorem c10_add_node_overwrite_counterexample :
    (t0.add_node 0 (.entry (Entry.mk_new 0 "x" "y"))).2 = .ok () ∧
    containerOrderAt (t0.add_node 0 (.entry (Entry.mk_new 0 "x" "y"))).1 0 =
      none :=
  ⟨rfl, rfl⟩

/-- C10 (amended): `add_node` performs no freshness check — it returns
`Ok` whenever `parent_id` resolves to a container, silently overwrites
any existing binding of the node's identifier in `nodes`, rewrites its
`locations` entry to `parent_id`, and (provided the identifier differs
from `parent_id`) appends the identifier to the parent's `order` — a
second occurrence when it was already listed there.  When the identifier
equals `parent_id`, the parent container itself is overwritten by the
new node and the appended order is lost. -/
theorem c10_add_node_no_freshness_check (t : Tree) (parent_id : Id)
    (n : Node) (c : Container)
    (hc : mapLookup t.nodes parent_id = some (.container c)) :
    (t.add_node parent_id n).2 = .ok () ∧
    mapLookup (t.add_node parent_id n).1.nodes n.get_id = some n ∧
    mapLookup (t.add_node parent_id n).1.locations n.get_id =
      some parent_id ∧
    (n.get_id ≠ parent_id →
      containerOrderAt (t.add_node parent_id n).1 parent_id =
        some (c.order ++ [n.get_id])) ∧
    (n.get_id = parent_id →
      mapLookup (t.add_node parent_id n).1.nodes parent_id = some n) := by
  have hgc : t.get_container parent_id = .ok c :=
    (get_container_ok_iff t parent_id c).2 hc
  rw [add_node_ok n hgc]
  refine ⟨rfl, ?_, ?_, ?_, ?_⟩
  · show mapLookup (mapInsert (mapModify t.nodes parent_id
      (fun _ => Node.container (c.add_order n.get_id))) n.get_id n)
        n.get_id = some n
    exact mapLookup_mapInsert_self _ _ _
  · show mapLookup (mapInsert t.locations n.get_id parent_id) n.get_id =
      some parent_id
    exact mapLookup_mapInsert_self _ _ _
  · intro hne
    unfold containerOrderAt
    show (match mapLookup (mapInsert (mapModify t.nodes parent_id
        (fun _ => Node.container (c.add_order n.get_id))) n.get_id n)
        parent_id with
      | some (.container c) => some c.order
      | _ => none) = _
    rw [mapLookup_mapInsert_ne _ _ _ _ (fun h => hne h.symm),
      mapLookup_mapModify_self, hc]
    rfl
  · intro heq
    subst heq
    show mapLookup (mapInsert (mapModify t.nodes n.get_id
      (fun _ => Node.container (c.add_order n.get_id))) n.get_id n)
        n.get_id = some n
    exact mapLookup_mapInsert_self _ _ _

/-- C10 witness: adding an entry with the already-bound identifier 1
under the root of `tE`: the call succeeds, the old node is overwritten,
and the root order becomes `[1, 2, 1]` (the id now listed twice). -/
theorem c10_add_node_no_freshness_check_witness :
    (tE.add_node 0 (.entry (Entry.mk_new 1 "x" "y"))).2 = .ok () ∧
    containerOrderAt (tE.add_node 0 (.entry (Entry.mk_new 1 "x" "y"))).1 0 =
      some [1, 2, 1] :=
  ⟨(c10_add_node_no_freshness_check tE 0 (.entry (Entry.mk_new 1 "x" "y"))
      rootC12 (by decide)).1,
    (c10_add_node_no_freshness_check tE 0 (.entry (Entry.mk_new 1 "x" "y"))
      rootC12 (by decide)).2.2.2.1 (by decide)⟩

/-! ## Position and swap lemmas (for C6 and the swap invariant) -/

theorem listPosition_get? {a : Id} {l : List Id} {i : Nat}
    (h : listPosition (fun x => x = a) l = some i) : l.get? i = some a := by
  induction l generalizing i with
  | nil => exact Option.noConfusion h
  | cons x xs ih =>
    unfold listPosition at h
    by_cases hx : x = a
    · rw [if_pos (by simp [hx])] at h
      cases h
      simp [hx]
    · rw [if_neg (by simp [hx])] at h
      cases hl : listPosition (fun x => x = a) xs with
      | none => rw [hl] at h; exact Option.noConfusion h
      | some j =>
        rw [hl] at h
        simp only [Option.map_some'] at h
        cases h
        exact ih hl

theorem listPosition_of_mem {a : Id} {l : List Id} (h : a ∈ l) :
    ∃ i, listPosition (fun x => x = a) l = some i := by
  induction l with
  | nil => simp at h
  | cons x xs ih =>
    by_cases hx : x = a
    · exact ⟨0, by unfold listPosition; rw [if_pos (by simp [hx])]⟩
    · have hmem : a ∈ xs := by
        rcases List.mem_cons.1 h with h1 | h2
        · exact absurd h1.symm hx
        · exact h2
      obtain ⟨j, hj⟩ := ih hmem
      refine ⟨j + 1, ?_⟩
      unfold listPosition
      rw [if_neg (by simp [hx]), hj]
      rfl

theorem count_set_aux (l : List Id) (n : Nat) (y got x : Id)
    (h : l.get? n = some got) :
    (l.set n y).count x + (if got = x then 1 else 0) =
      l.count x + (if y = x then 1 else 0) := by
  induction l generalizing n with
  | nil => exact Option.noConfusion h
  | cons a l ih =>
    cases n with
    | zero =>
      have ha : a = got := Option.some.inj h
      subst ha
      show (y :: l).count x + _ = (a :: l).count x + _
      rw [List.count_cons, List.count_cons]
      by_cases hy : y = x <;> by_cases hax : a = x <;> simp [hy, hax]
    | succ n =>
      have h' : l.get? n = some got := h
      have := ih n h'
      show (a :: l.set n y).count x + _ = (a :: l).count x + _
      rw [List.count_cons, List.count_cons]
      by_cases hax : a = x <;> simp [hax] <;> omega

theorem count_swap_sets (l : List Id) (i j : Nat) (a b x : Id)
    (hi : l.get? i = some a) (hj : l.get? j = some b) (hij : i ≠ j) :
    ((l.set i b).set j a).count x = l.count x := by
  have h1 : (l.set i b).get? j = some b := by
    rw [List.get?_set_ne b l hij]; exact hj
  have e1 := count_set_aux (l.set i b) j a b x h1
  have e2 := count_set_aux l i b a x hi
  exact Nat.add_right_cancel (e1.trans e2)

theorem compare_parents_eq {t : Tree} {a b pa pb : Id}
    (ha : t.get_parent_id a = .ok pa) (hb : t.get_parent_id b = .ok pb) :
    t.compare_parents a b = .ok (decide (pa = pb)) := by
  unfold Tree.compare_parents; simp only [ha, hb]

theorem swap_order_eq {c : Container} {a b : Id} {i j : Nat}
    (hi : listPosition (fun x => x = a) c.order = some i)
    (hj : listPosition (fun y => y = b) c.order = some j) :
    c.swap_order a b = { c with order :=
      (c.order.set i (c.order.getD j 0)).set j (c.order.getD i 0) } := by
  unfold Container.swap_order; simp only [hi, hj]

/-- C6 counterexample: `swap_nodes(root, root)` fails, but with the
`NoParent` error ("Root node doesn't have parent container"), not with
`SelfSwap` — `compare_parents` runs before the self-swap check and the
root has no parent, so the claim "fails with `SelfSwap` whenever
`a == b`" is false at `a = b = root`. -/
theorem c6_swap_root_self_counterexample :
    (t0.swap_nodes 0 0).2 = .error .noParent ∧
    (t0.swap_nodes 0 0).2 ≠ .error .selfSwap :=
  ⟨rfl, by decide⟩

/-- C6 (amended): `swap_nodes(a, b)` fails with `DifferentParents`
whenever `a` and `b` both have recorded parents and those parents are
distinct; it fails with `SelfSwap` whenever `a == b` AND `a` has a
recorded parent (when `a == b` is the root or unknown, parent resolution
fails first with a different error); and when `a ≠ b` share the same
container parent and both appear in its `order`, it succeeds and
exchanges exactly their two positions, leaving every other position
unchanged. -/
theorem c6_swap_nodes_spec (t : Tree) (a b pa pb p : Id) (c : Container) :
    (t.get_parent_id a = .ok pa → t.get_parent_id b = .ok pb → pa ≠ pb →
      t.swap_nodes a b = (t, .error .differentParents)) ∧
    (t.get_parent_id a = .ok pa →
      t.swap_nodes a a = (t, .error .selfSwap)) ∧
    (a ≠ b → t.get_parent_id a = .ok p → t.get_parent_id b = .ok p →
      mapLookup t.nodes p = some (.container c) →
      a ∈ c.order → b ∈ c.order →
      ∃ i j, c.order.get? i = some a ∧ c.order.get? j = some b ∧ i ≠ j ∧
        t.swap_nodes a b = (t.setNode p (.container { c with
          order := (c.order.set i b).set j a }), .ok ()) ∧
        ((c.order.set i b).set j a).length = c.order.length ∧
        ((c.order.set i b).set j a).get? i = some b ∧
        ((c.order.set i b).set j a).get? j = some a ∧
        (∀ k, k ≠ i → k ≠ j →
          ((c.order.set i b).set j a).get? k = c.order.get? k)) := by
  refine ⟨?_, ?_, ?_⟩
  · intro hpa hpb hne
    have hcp : t.compare_parents a b = .ok false := by
      rw [compare_parents_eq hpa hpb]
      simp [hne]
    exact swap_nodes_different hcp
  · intro hpa
    have hcp : t.compare_parents a a = .ok true := by
      rw [compare_parents_eq hpa hpa]
      simp
    exact swap_nodes_self hcp rfl
  · intro hab hpa hpb hc hma hmb
    obtain ⟨i, hi⟩ := listPosition_of_mem hma
    obtain ⟨j, hj⟩ := listPosition_of_mem hmb
    have hgi : c.order.get? i = some a := listPosition_get? hi
    have hgj : c.order.get? j = some b := listPosition_get? hj
    have hij : i ≠ j := by
      intro he
      rw [he, hgj] at hgi
      exact hab (Option.some.inj hgi).symm
    have hcp : t.compare_parents a b = .ok true := by
      rw [compare_parents_eq hpa hpb]
      simp
    have hgc : t.get_container p = .ok c :=
      (get_container_ok_iff t p c).2 hc
    have hlt_i : i < c.order.length := (List.get?_eq_some.1 hgi).1
    have hlt_j : j < c.order.length := (List.get?_eq_some.1 hgj).1
    have hso : c.swap_order a b =
        { c with order := (c.order.set i b).set j a } := by
      rw [swap_order_eq hi hj]
      have hdj : c.order.getD j 0 = b := by
        show (c.order.get? j).getD 0 = b
        rw [hgj]
        rfl
      have hdi : c.order.getD i 0 = a := by
        show (c.order.get? i).getD 0 = a
        rw [hgi]
        rfl
      rw [hdj, hdi]
    refine ⟨i, j, hgi, hgj, hij, ?_, ?_, ?_, ?_, ?_⟩
    · rw [swap_nodes_ok hcp hab hpa hgc, hso]
    · simp [List.length_set]
    · rw [List.get?_set_ne a (c.order.set i b) (Ne.symm hij)]
      exact List.get?_set_eq_of_lt b hlt_i
    · exact List.get?_set_eq_of_lt a (by simpa [List.length_set] using hlt_j)
    · intro k hki hkj
      rw [List.get?_set_ne a (c.order.set i b) (Ne.symm hkj),
        List.get?_set_ne b c.order (Ne.symm hki)]

/-- C6 witness: the amended swap theorem applied concretely — a self-swap
of the non-root node 1 of `tE` fails with `SelfSwap`, and swapping nodes
1 and 2 of `t2` (whose parents 0 and 1 differ) fails with
`DifferentParents`. -/
theorem c6_swap_nodes_spec_witness :
    tE.swap_nodes 1 1 = (tE, .error .selfSwap) ∧
    t2.swap_nodes 1 2 = (t2, .error .differentParents) :=
  ⟨(c6_swap_nodes_spec tE 1 1 0 0 0 rootC12).2.1 (by decide),
    (c6_swap_nodes_spec t2 1 2 0 1 0 rootC12).1 (by decide) (by decide)
      (by decide)⟩

/-! ## Bridge and inversion lemmas for the invariant proofs (C3) -/

theorem containerOrderAt_of_lookup {t : Tree} {k : Id} {c : Container}
    (h : mapLookup t.nodes k = some (.container c)) :
    containerOrderAt t k = some c.order := by
  unfold containerOrderAt; rw [h]

theorem containerOrderAt_isSome_elim {t : Tree} {k : Id}
    (h : (containerOrderAt t k).isSome = true) :
    ∃ c, mapLookup t.nodes k = some (.container c) := by
  unfold containerOrderAt at h
  cases hl : mapLookup t.nodes k with
  | none => rw [hl] at h; simp at h
  | some n =>
    cases n with
    | entry e => rw [hl] at h; simp at h
    | container c => exact ⟨c, rfl⟩

theorem orderCountOne_iff (t : Tree) (p k : Id) :
    orderCountOne t p k = true ↔
      ∃ c, mapLookup t.nodes p = some (.container c) ∧
        c.order.count k = 1 := by
  unfold orderCountOne containerOrderAt
  cases h : mapLookup t.nodes p with
  | none => simp
  | some n => cases n <;> simp

theorem add_node_ok_inv {t t' : Tree} {p : Id} {n : Node}
    (h : t.add_node p n = (t', .ok ())) :
    ∃ c, mapLookup t.nodes p = some (.container c) ∧
      t' = { root := t.root
             nodes := mapInsert (mapModify t.nodes p
               (fun _ => .container (c.add_order n.get_id))) n.get_id n
             locations := mapInsert t.locations n.get_id p } := by
  cases hc : t.get_container p with
  | error e =>
    rw [add_node_error n hc] at h
    injection h with h1 h2
    exact Except.noConfusion h2
  | ok c =>
    rw [add_node_ok n hc] at h
    injection h with h1 h2
    exact ⟨c, (get_container_ok_iff t p c).1 hc, h1.symm⟩

theorem remove_node_ok_inv {t t' : Tree} {id : Id}
    (h : t.remove_node id = (t', .ok ())) :
    ∃ p c, t.get_parent_id id = .ok p ∧
      mapLookup t.nodes p = some (.container c) ∧
      t' = { root := t.root
             nodes := mapRemove (mapModify t.nodes p
               (fun _ => .container (c.remove_order id))) id
             locations := mapRemove t.locations id } := by
  cases hp : t.get_parent_id id with
  | error e =>
    rw [remove_node_error1 hp] at h
    injection h with h1 h2
    exact Except.noConfusion h2
  | ok p =>
    cases hc : t.get_container p with
    | error e =>
      rw [remove_node_error2 hp hc] at h
      injection h with h1 h2
      exact Except.noConfusion h2
    | ok c =>
      rw [remove_node_ok hp hc] at h
      injection h with h1 h2
      exact ⟨p, c, rfl, (get_container_ok_iff t p c).1 hc, h1.symm⟩

theorem move_node_ok_inv {t t' : Tree} {id : Id} {pos : Nat}
    (h : t.move_node id pos = some (t', .ok ())) :
    ∃ p c c', t.get_parent_id id = .ok p ∧
      mapLookup t.nodes p = some (.container c) ∧
      c.move_order id pos = some c' ∧
      t' = t.setNode p (.container c') := by
  cases hp : t.get_parent_id id with
  | error e =>
    rw [move_node_error1 pos hp] at h
    injection h with h1
    injection h1 with h2 h3
    exact Except.noConfusion h3
  | ok p =>
    cases hc : t.get_container p with
    | error e =>
      rw [move_node_error2 pos hp hc] at h
      injection h with h1
      injection h1 with h2 h3
      exact Except.noConfusion h3
    | ok c =>
      cases hm : c.move_order id pos with
      | none =>
        rw [move_node_panic hp hc hm] at h
        exact Option.noConfusion h
      | some c' =>
        rw [move_node_ok hp hc hm] at h
        injection h with h1
        injection h1 with h2 h3
        exact ⟨p, c, c', rfl, (get_container_ok_iff t p c).1 hc, hm,
          h2.symm⟩

theorem compare_parents_ok_inv {t : Tree} {a b : Id} {res : Bool}
    (h : t.compare_parents a b = .ok res) :
    ∃ pa pb, t.get_parent_id a = .ok pa ∧ t.get_parent_id b = .ok pb ∧
      res = decide (pa = pb) := by
  unfold Tree.compare_parents at h
  cases ha : t.get_parent_id a with
  | error e => rw [ha] at h; exact Except.noConfusion h
  | ok pa =>
    rw [ha] at h
    cases hb : t.get_parent_id b with
    | error e => rw [hb] at h; exact Except.noConfusion h
    | ok pb =>
      rw [hb] at h
      injection h with h1
      exact ⟨pa, pb, rfl, rfl, h1.symm⟩

theorem swap_nodes_ok_inv {t t' : Tree} {a b : Id}
    (h : t.swap_nodes a b = (t', .ok ())) :
    ∃ p c, a ≠ b ∧ t.get_parent_id a = .ok p ∧
      t.get_parent_id b = .ok p ∧
      mapLookup t.nodes p = some (.container c) ∧
      t' = t.setNode p (.container (c.swap_order a b)) := by
  cases hcp : t.compare_parents a b with
  | error e =>
    rw [swap_nodes_error_cp hcp] at h
    injection h with h1 h2
    exact Except.noConfusion h2
  | ok same =>
    cases same with
    | false =>
      rw [swap_nodes_different hcp] at h
      injection h with h1 h2
      exact Except.noConfusion h2
    | true =>
      obtain ⟨pa, pb, hpa, hpb, hres⟩ := compare_parents_ok_inv hcp
      have hpp : pa = pb := of_decide_eq_true hres.symm
      subst hpp
      by_cases hab : a = b
      · rw [swap_nodes_self hcp hab] at h
        injection h with h1 h2
        exact Except.noConfusion h2
      · cases hc : t.get_container pa with
        | error e =>
          rw [swap_nodes_error_c hcp hab hpa hc] at h
          injection h with h1 h2
          exact Except.noConfusion h2
        | ok c =>
          rw [swap_nodes_ok hcp hab hpa hc] at h
          injection h with h1 h2
          exact ⟨pa, c, hab, hpa, hpb,
            (get_container_ok_iff t pa c).1 hc, h1.symm⟩

theorem count_filter_ne (l : List Id) (id x : Id) (h : x ≠ id) :
    (l.filter (fun y => y ≠ id)).count x = l.count x := by
  induction l with
  | nil => rfl
  | cons a l ih =>
    rw [List.filter_cons]
    by_cases ha : a = id
    · rw [if_neg (by simp [ha]), ih, List.count_cons]
      have hax : (a == x) = false := by
        simp [ha]
        exact Ne.symm h
      rw [hax]
      simp
    · rw [if_pos (by simp [ha]), List.count_cons, List.count_cons, ih]

theorem count_filter_self (l : List Id) (id : Id) :
    (l.filter (fun y => y ≠ id)).count id = 0 := by
  rw [List.count_eq_zero]
  intro hmem
  have := (List.mem_filter.1 hmem).2
  simp at this

/-- Reordering a container's `order` to any count-equivalent list
preserves all four invariants. -/
theorem inv_replace_order {t : Tree} {p : Id} {c : Container}
    {o' : List Id}
    (hInv : Inv t)
    (hp : mapLookup t.nodes p = some (.container c))
    (hcnt : ∀ x, o'.count x = c.order.count x) :
    Inv (t.setNode p (.container { c with order := o' })) := by
  obtain ⟨hInv1, hInv2, hInv3, hInv4⟩ := hInv
  obtain ⟨hInv4a, hInv4b⟩ := hInv4
  have hmem_o' : ∀ x, x ∈ o' ↔ x ∈ c.order := by
    intro x
    rw [← List.count_pos_iff, ← List.count_pos_iff, hcnt]
  have hlook : ∀ k, mapLookup (t.setNode p
      (.container { c with order := o' })).nodes k =
      if k = p then some (.container { c with order := o' })
      else mapLookup t.nodes k := by
    intro k
    rw [setNode_nodes]
    by_cases hk : k = p
    · subst hk
      rw [mapLookup_mapModify_self, hp]
      simp
    · rw [mapLookup_mapModify_ne _ _ _ _ hk, if_neg hk]
  refine ⟨?_, ?_, ?_, ?_, ?_⟩
  · -- Inv1
    unfold Inv1
    rw [setNode_root]
    obtain ⟨rc, hrc⟩ := containerOrderAt_isSome_elim hInv1
    unfold containerOrderAt
    rw [hlook t.root]
    by_cases hrp : t.root = p <;> simp [hrp, hrc]
  · -- Inv2
    intro kp hkp
    rw [setNode_locations] at hkp
    have hold := (orderCountOne_iff t kp.2 kp.1).1 (hInv2 kp hkp)
    obtain ⟨c2, hc2, hcount2⟩ := hold
    rw [orderCountOne_iff]
    by_cases hk2 : kp.2 = p
    · subst hk2
      rw [hp] at hc2
      have hcc : c2 = c := by
        injection hc2 with h1
        injection h1 with h2
        exact h2.symm
      subst hcc
      refine ⟨{ c2 with order := o' }, ?_, ?_⟩
      · rw [hlook kp.2, if_pos rfl]
      · show o'.count kp.1 = 1
        rw [hcnt kp.1]
        exact hcount2
    · exact ⟨c2, by rw [hlook kp.2, if_neg hk2]; exact hc2, hcount2⟩
  · -- Inv3
    intro kn hkn id hid
    rw [setNode_nodes] at hkn
    rw [setNode_locations]
    obtain ⟨q, hq, hqe⟩ := (mem_mapModify_iff _ _ _ _).1 hkn
    by_cases hq1 : q.1 = p
    · rw [if_pos hq1] at hqe
      subst hqe
      have hid' : id ∈ c.order := by
        have : id ∈ o' := by simpa [Node.childIds] using hid
        exact (hmem_o' id).1 this
      have hold := hInv3 (p, .container c) (mapLookup_mem hp) id
        (by simpa [Node.childIds] using hid')
      refine ⟨by rw [hq1]; exact hold.1, ?_⟩
      rw [setNode_nodes, isSome_mapLookup_mapModify]
      exact hold.2
    · rw [if_neg hq1] at hqe
      subst hqe
      have hold := hInv3 kn hq id hid
      refine ⟨hold.1, ?_⟩
      rw [setNode_nodes, isSome_mapLookup_mapModify]
      exact hold.2
  · -- Inv4a
    intro kn hkn
    rw [setNode_nodes] at hkn
    rw [setNode_root, setNode_locations]
    obtain ⟨q, hq, hqe⟩ := (mem_mapModify_iff _ _ _ _).1 hkn
    have hk1 : kn.1 = q.1 := by
      by_cases hq1 : q.1 = p
      · rw [if_pos hq1] at hqe; rw [hqe]
      · rw [if_neg hq1] at hqe; rw [hqe]
    rw [hk1]
    exact hInv4a q hq
  · -- Inv4b
    intro kp hkp
    rw [setNode_locations] at hkp
    rw [setNode_nodes, isSome_mapLookup_mapModify]
    exact hInv4b kp hkp

theorem count_move (l : List Id) (id : Id) (pos : Nat)
    (hcount : l.count id = 1) (x : Id) :
    ((l.filter (fun y => y ≠ id)).take pos ++ id ::
      (l.filter (fun y => y ≠ id)).drop pos).count x = l.count x := by
  have hsplit : (l.filter (fun y => y ≠ id)).take pos ++
      (l.filter (fun y => y ≠ id)).drop pos =
      l.filter (fun y => y ≠ id) := List.take_append_drop _ _
  rw [List.count_append, List.count_cons]
  by_cases hx : x = id
  · subst hx
    have h0 : ((l.filter (fun y => y ≠ x)).take pos).count x +
        ((l.filter (fun y => y ≠ x)).drop pos).count x = 0 := by
      rw [← List.count_append, hsplit]
      exact count_filter_self l x
    rw [if_pos (by simp)]
    omega
  · have heq : ((l.filter (fun y => y ≠ id)).take pos).count x +
        ((l.filter (fun y => y ≠ id)).drop pos).count x = l.count x := by
      rw [← List.count_append, hsplit]
      exact count_filter_ne l id x hx
    rw [if_neg (by simp [Ne.symm hx])]
    omega

theorem move_order_some_inv {c : Container} {id : Id} {pos : Nat}
    {c' : Container} (h : c.move_order id pos = some c') :
    pos ≤ (c.order.filter (fun y => y ≠ id)).length ∧
    c' = { c with order := (c.order.filter (fun y => y ≠ id)).take pos ++
      id :: (c.order.filter (fun y => y ≠ id)).drop pos } := by
  by_cases hle : pos ≤ (c.order.filter (fun y => y ≠ id)).length
  · rw [move_order_some hle] at h
    exact ⟨hle, (Option.some.inj h).symm⟩
  · rw [move_order_none (Nat.not_le.1 hle)] at h
    exact Option.noConfusion h

theorem swap_order_shape (c : Container) (a b : Id) (hab : a ≠ b) :
    ∃ o', c.swap_order a b = { c with order := o' } ∧
      (∀ x, o'.count x = c.order.count x) := by
  unfold Container.swap_order
  cases hi : listPosition (fun x => x = a) c.order with
  | none => exact ⟨c.order, rfl, fun x => rfl⟩
  | some i =>
    cases hj : listPosition (fun y => y = b) c.order with
    | none => exact ⟨c.order, rfl, fun x => rfl⟩
    | some j =>
      have hga : c.order.get? i = some a := listPosition_get? hi
      have hgb : c.order.get? j = some b := listPosition_get? hj
      have hij : i ≠ j := by
        intro he
        rw [he, hgb] at hga
        exact hab (Option.some.inj hga).symm
      have hdj : c.order.getD j 0 = b := by
        show (c.order.get? j).getD 0 = b
        rw [hgb]
        rfl
      have hdi : c.order.getD i 0 = a := by
        show (c.order.get? i).getD 0 = a
        rw [hga]
        rfl
      refine ⟨(c.order.set i b).set j a, ?_, ?_⟩
      · show ({ c with
            order := ((c.order.set i (c.order.getD j 0)).set j
              (c.order.getD i 0)) } : Container) = _
        rw [hdj, hdi]
      · intro x
        exact count_swap_sets c.order i j a b x hga hgb hij

/-- `move_node` preserves the invariants. -/
theorem inv_move {t t' : Tree} {id : Id} {pos : Nat}
    (hInv : Inv t) (h : t.move_node id pos = some (t', .ok ())) :
    Inv t' := by
  obtain ⟨p, c, c', hp, hc, hm, rfl⟩ := move_node_ok_inv h
  obtain ⟨hle, rfl⟩ := move_order_some_inv hm
  have hloc : mapLookup t.locations id = some p :=
    ((get_parent_id_ok_iff t id p).1 hp).2
  obtain ⟨c2, hc2, hcount2⟩ := (orderCountOne_iff t p id).1
    (hInv.2.1 (id, p) (mapLookup_mem hloc))
  have hcc : c2 = c := by
    rw [hc] at hc2
    injection hc2 with h1
    injection h1 with h2
    exact h2.symm
  subst hcc
  exact inv_replace_order hInv hc (count_move c2.order id pos hcount2)

/-- `swap_nodes` preserves the invariants. -/
theorem inv_swap {t t' : Tree} {a b : Id}
    (hInv : Inv t) (h : t.swap_nodes a b = (t', .ok ())) : Inv t' := by
  obtain ⟨p, c, hab, hpa, hpb, hc, rfl⟩ := swap_nodes_ok_inv h
  obtain ⟨o', heq, hcnt⟩ := swap_order_shape c a b hab
  rw [heq]
  exact inv_replace_order hInv hc hcnt

/-- `add_node` of a fresh node preserves the invariants. -/
theorem inv_add {t t' : Tree} {p : Id} {n : Node}
    (hInv : Inv t) (hfresh : NodeFresh t n)
    (h : t.add_node p n = (t', .ok ())) : Inv t' := by
  obtain ⟨c, hc, ht'⟩ := add_node_ok_inv h
  obtain ⟨hInv1, hInv2, hInv3, hInv4⟩ := hInv
  obtain ⟨hInv4a, hInv4b⟩ := hInv4
  obtain ⟨hfl, hfc⟩ := hfresh
  have hroot' : t'.root = t.root := by rw [ht']
  have hnodes' : t'.nodes = mapInsert (mapModify t.nodes p
      (fun _ => Node.container (c.add_order n.get_id))) n.get_id n := by
    rw [ht']
  have hloc' : t'.locations = mapInsert t.locations n.get_id p := by
    rw [ht']
  have hpne : n.get_id ≠ p := by
    intro he
    rw [he, hc] at hfl
    exact Option.noConfusion hfl
  have hrne : n.get_id ≠ t.root := by
    intro he
    obtain ⟨rc, hrc⟩ := containerOrderAt_isSome_elim hInv1
    rw [he, hrc] at hfl
    exact Option.noConfusion hfl
  have hnotin : n.get_id ∉ c.order := by
    intro hmem
    have h3 := (hInv3 (p, .container c) (mapLookup_mem hc) n.get_id
      (by simpa [Node.childIds] using hmem)).2
    rw [hfl] at h3
    simp at h3
  have hlook : ∀ k, mapLookup t'.nodes k =
      if k = n.get_id then some n
      else if k = p then some (.container (c.add_order n.get_id))
      else mapLookup t.nodes k := by
    intro k
    rw [hnodes']
    by_cases hk : k = n.get_id
    · subst hk
      rw [mapLookup_mapInsert_self]
      simp
    · rw [mapLookup_mapInsert_ne _ _ _ _ hk, if_neg hk]
      by_cases hkp : k = p
      · subst hkp
        rw [mapLookup_mapModify_self, hc, if_pos rfl]
        rfl
      · rw [mapLookup_mapModify_ne _ _ _ _ hkp, if_neg hkp]
  have hlookloc : ∀ k, mapLookup t'.locations k =
      if k = n.get_id then some p else mapLookup t.locations k := by
    intro k
    rw [hloc']
    by_cases hk : k = n.get_id
    · subst hk
      rw [mapLookup_mapInsert_self]
      simp
    · rw [mapLookup_mapInsert_ne _ _ _ _ hk, if_neg hk]
  refine ⟨?_, ?_, ?_, ?_, ?_⟩
  · -- Inv1
    unfold Inv1 containerOrderAt
    rw [hroot', hlook t.root, if_neg (Ne.symm hrne)]
    by_cases hrp : t.root = p
    · rw [if_pos hrp]
      rfl
    · rw [if_neg hrp]
      obtain ⟨rc, hrc⟩ := containerOrderAt_isSome_elim hInv1
      rw [hrc]
      rfl
  · -- Inv2
    intro kp hkp
    obtain ⟨k1, k2⟩ := kp
    rw [hloc'] at hkp
    show orderCountOne t' k2 k1 = true
    rw [orderCountOne_iff]
    rcases (mem_mapInsert_iff _ _ _ _).1 hkp with heq | ⟨hmem, hne⟩
    · injection heq with he1 he2
      rw [he1, he2]
      refine ⟨c.add_order n.get_id, ?_, ?_⟩
      · rw [hlook p, if_neg (Ne.symm hpne), if_pos rfl]
      · show (c.order ++ [n.get_id]).count n.get_id = 1
        rw [List.count_append, List.count_eq_zero.2 hnotin]
        simp
    · simp only at hne
      obtain ⟨c2, hc2, hcount2⟩ := (orderCountOne_iff t k2 k1).1
        (hInv2 (k1, k2) hmem)
      have h2ne : k2 ≠ n.get_id := by
        intro he
        rw [he, hfl] at hc2
        exact Option.noConfusion hc2
      by_cases hk2 : k2 = p
      · rw [hk2] at hc2
        have hcc : c2 = c := by
          rw [hc] at hc2
          injection hc2 with h1
          injection h1 with h2
          exact h2.symm
        refine ⟨c.add_order n.get_id, ?_, ?_⟩
        · rw [hk2, hlook p, if_neg (Ne.symm hpne), if_pos rfl]
        · show (c.order ++ [n.get_id]).count k1 = 1
          rw [List.count_append, List.count_cons,
            if_neg (by simp; exact fun he => hne he.symm)]
          rw [← hcc]
          simpa using hcount2
      · exact ⟨c2, by rw [hlook k2, if_neg h2ne, if_neg hk2]; exact hc2,
          hcount2⟩
  · -- Inv3
    intro kn hkn id hid
    obtain ⟨k, nd⟩ := kn
    rw [hnodes'] at hkn
    replace hid : id ∈ Node.childIds nd := hid
    show mapLookup t'.locations id = some k ∧
      (mapLookup t'.nodes id).isSome = true
    rcases (mem_mapInsert_iff _ _ _ _).1 hkn with heq | ⟨hmem, hne⟩
    · injection heq with he1 he2
      rw [he2, hfc] at hid
      exact absurd hid (List.not_mem_nil id)
    · simp only at hne
      obtain ⟨q, hq, hqe⟩ := (mem_mapModify_iff _ _ _ _).1 hmem
      obtain ⟨q1, q2⟩ := q
      by_cases hq1 : q1 = p
      · rw [if_pos hq1] at hqe
        injection hqe with he1 he2
        rw [he2] at hid
        have hid' : id ∈ c.order ++ [n.get_id] := by
          simpa [Node.childIds, Container.add_order] using hid
        rcases List.mem_append.1 hid' with hidc | hidn
        · have hold := hInv3 (p, .container c) (mapLookup_mem hc) id
            (by simpa [Node.childIds] using hidc)
          have hidne : id ≠ n.get_id := by
            intro he
            have h2 := hold.2
            rw [he, hfl] at h2
            simp at h2
          refine ⟨?_, ?_⟩
          · rw [hlookloc id, if_neg hidne, he1, hq1]
            exact hold.1
          · rw [hlook id, if_neg hidne]
            by_cases hidp : id = p
            · rw [if_pos hidp]
              rfl
            · rw [if_neg hidp]
              exact hold.2
        · have hidn' : id = n.get_id := by simpa using hidn
          refine ⟨?_, ?_⟩
          · rw [hidn', hlookloc n.get_id, if_pos rfl, he1, hq1]
          · rw [hidn', hlook n.get_id, if_pos rfl]
            rfl
      · rw [if_neg hq1] at hqe
        injection hqe with he1 he2
        rw [he2] at hid
        have hold := hInv3 (q1, q2) hq id hid
        have hidne : id ≠ n.get_id := by
          intro he
          have h2 := hold.2
          rw [he, hfl] at h2
          simp at h2
        refine ⟨?_, ?_⟩
        · rw [hlookloc id, if_neg hidne, he1]
          exact hold.1
        · rw [hlook id, if_neg hidne]
          by_cases hidp : id = p
          · rw [if_pos hidp]
            rfl
          · rw [if_neg hidp]
            exact hold.2
  · -- Inv4a
    intro kn hkn
    obtain ⟨k, nd⟩ := kn
    rw [hnodes'] at hkn
    show k = t'.root ∨ (mapLookup t'.locations k).isSome = true
    rw [hroot']
    rcases (mem_mapInsert_iff _ _ _ _).1 hkn with heq | ⟨hmem, hne⟩
    · injection heq with he1 he2
      right
      rw [hlookloc k, if_pos he1]
      rfl
    · simp only at hne
      obtain ⟨q, hq, hqe⟩ := (mem_mapModify_iff _ _ _ _).1 hmem
      obtain ⟨q1, q2⟩ := q
      have hk1 : k = q1 := by
        by_cases hq1 : q1 = p
        · rw [if_pos hq1] at hqe
          exact congrArg Prod.fst hqe
        · rw [if_neg hq1] at hqe
          exact congrArg Prod.fst hqe
      rcases hInv4a (q1, q2) hq with hr | hs
      · left
        rw [hk1]
        exact hr
      · right
        rw [hlookloc k, if_neg hne, hk1]
        exact hs
  · -- Inv4b
    intro kp hkp
    obtain ⟨k1, k2⟩ := kp
    rw [hloc'] at hkp
    show (mapLookup t'.nodes k1).isSome = true
    rcases (mem_mapInsert_iff _ _ _ _).1 hkp with heq | ⟨hmem, hne⟩
    · injection heq with he1 he2
      rw [hlook k1, if_pos he1]
      rfl
    · simp only at hne
      have hold := hInv4b (k1, k2) hmem
      rw [hlook k1, if_neg hne]
      by_cases hk1p : k1 = p
      · rw [if_pos hk1p]
        rfl
      · rw [if_neg hk1p]
        exact hold

/-- `remove_node` of a childless node preserves the invariants. -/
theorem inv_remove {t t' : Tree} {id : Id}
    (hInv : Inv t) (hch : Childless t id)
    (h : t.remove_node id = (t', .ok ())) : Inv t' := by
  obtain ⟨p, c, hp, hc, ht'⟩ := remove_node_ok_inv h
  obtain ⟨hInv1, hInv2, hInv3, hInv4⟩ := hInv
  obtain ⟨hInv4a, hInv4b⟩ := hInv4
  obtain ⟨hidroot, hloc⟩ := (get_parent_id_ok_iff t id p).1 hp
  have hroot' : t'.root = t.root := by rw [ht']
  have hnodes' : t'.nodes = mapRemove (mapModify t.nodes p
      (fun _ => Node.container (c.remove_order id))) id := by rw [ht']
  have hloc' : t'.locations = mapRemove t.locations id := by rw [ht']
  have hpne : p ≠ id := hch (id, p) (mapLookup_mem hloc)
  have hlook : ∀ k, mapLookup t'.nodes k =
      if k = id then none
      else if k = p then some (.container (c.remove_order id))
      else mapLookup t.nodes k := by
    intro k
    rw [hnodes']
    by_cases hk : k = id
    · subst hk
      rw [mapLookup_mapRemove_self]
      simp
    · rw [mapLookup_mapRemove_ne _ _ _ hk, if_neg hk]
      by_cases hkp : k = p
      · subst hkp
        rw [mapLookup_mapModify_self, hc, if_pos rfl]
        rfl
      · rw [mapLookup_mapModify_ne _ _ _ _ hkp, if_neg hkp]
  have hlookloc : ∀ k, mapLookup t'.locations k =
      if k = id then none else mapLookup t.locations k := by
    intro k
    rw [hloc']
    by_cases hk : k = id
    · subst hk
      rw [mapLookup_mapRemove_self]
      simp
    · rw [mapLookup_mapRemove_ne _ _ _ hk, if_neg hk]
  refine ⟨?_, ?_, ?_, ?_, ?_⟩
  · -- Inv1
    unfold Inv1 containerOrderAt
    rw [hroot', hlook t.root, if_neg (Ne.symm hidroot)]
    by_cases hrp : t.root = p
    · rw [if_pos hrp]
      rfl
    · rw [if_neg hrp]
      obtain ⟨rc, hrc⟩ := containerOrderAt_isSome_elim hInv1
      rw [hrc]
      rfl
  · -- Inv2
    intro kp hkp
    obtain ⟨k1, k2⟩ := kp
    rw [hloc'] at hkp
    obtain ⟨hmem, hne⟩ := (mem_mapRemove_iff _ _ _).1 hkp
    simp only at hne
    show orderCountOne t' k2 k1 = true
    rw [orderCountOne_iff]
    obtain ⟨c2, hc2, hcount2⟩ := (orderCountOne_iff t k2 k1).1
      (hInv2 (k1, k2) hmem)
    have h2ne : k2 ≠ id := hch (k1, k2) hmem
    by_cases hk2 : k2 = p
    · rw [hk2] at hc2
      have hcc : c2 = c := by
        rw [hc] at hc2
        injection hc2 with h1
        injection h1 with h2
        exact h2.symm
      refine ⟨c.remove_order id, ?_, ?_⟩
      · rw [hk2, hlook p, if_neg hpne, if_pos rfl]
      · show (c.order.filter (fun y => y ≠ id)).count k1 = 1
        rw [count_filter_ne c.order id k1 hne, ← hcc]
        exact hcount2
    · exact ⟨c2, by rw [hlook k2, if_neg h2ne, if_neg hk2]; exact hc2,
        hcount2⟩
  · -- Inv3
    intro kn hkn id' hid'
    obtain ⟨k, nd⟩ := kn
    rw [hnodes'] at hkn
    replace hid' : id' ∈ Node.childIds nd := hid'
    show mapLookup t'.locations id' = some k ∧
      (mapLookup t'.nodes id').isSome = true
    obtain ⟨hmem, hkne⟩ := (mem_mapRemove_iff _ _ _).1 hkn
    simp only at hkne
    obtain ⟨q, hq, hqe⟩ := (mem_mapModify_iff _ _ _ _).1 hmem
    obtain ⟨q1, q2⟩ := q
    by_cases hq1 : q1 = p
    · rw [if_pos hq1] at hqe
      have he1 : k = q1 := congrArg Prod.fst hqe
      have he2 : nd = Node.container (c.remove_order id) :=
        congrArg Prod.snd hqe
      rw [he2] at hid'
      have hidmem : id' ∈ c.order.filter (fun y => y ≠ id) := by
        simpa [Node.childIds, Container.remove_order] using hid'
      have hidc : id' ∈ c.order := (List.mem_filter.1 hidmem).1
      have hidne : id' ≠ id := by
        have := (List.mem_filter.1 hidmem).2
        simpa using this
      have hold := hInv3 (p, .container c) (mapLookup_mem hc) id'
        (by simpa [Node.childIds] using hidc)
      refine ⟨?_, ?_⟩
      · rw [hlookloc id', if_neg hidne, he1, hq1]
        exact hold.1
      · rw [hlook id', if_neg hidne]
        by_cases hidp : id' = p
        · rw [if_pos hidp]
          rfl
        · rw [if_neg hidp]
          exact hold.2
    · rw [if_neg hq1] at hqe
      have he1 : k = q1 := congrArg Prod.fst hqe
      have he2 : nd = q2 := congrArg Prod.snd hqe
      rw [he2] at hid'
      have hold := hInv3 (q1, q2) hq id' hid'
      have hidne : id' ≠ id := by
        intro he
        rw [he, hloc] at hold
        have := hold.1
        injection this with hpq
        exact hq1 hpq.symm
      refine ⟨?_, ?_⟩
      · rw [hlookloc id', if_neg hidne, he1]
        exact hold.1
      · rw [hlook id', if_neg hidne]
        by_cases hidp : id' = p
        · rw [if_pos hidp]
          rfl
        · rw [if_neg hidp]
          exact hold.2
  · -- Inv4a
    intro kn hkn
    obtain ⟨k, nd⟩ := kn
    rw [hnodes'] at hkn
    show k = t'.root ∨ (mapLookup t'.locations k).isSome = true
    rw [hroot']
    obtain ⟨hmem, hkne⟩ := (mem_mapRemove_iff _ _ _).1 hkn
    simp only at hkne
    obtain ⟨q, hq, hqe⟩ := (mem_mapModify_iff _ _ _ _).1 hmem
    obtain ⟨q1, q2⟩ := q
    have hk1 : k = q1 := by
      by_cases hq1 : q1 = p
      · rw [if_pos hq1] at hqe
        exact congrArg Prod.fst hqe
      · rw [if_neg hq1] at hqe
        exact congrArg Prod.fst hqe
    rcases hInv4a (q1, q2) hq with hr | hs
    · left
      rw [hk1]
      exact hr
    · right
      rw [hlookloc k, if_neg hkne, hk1]
      exact hs
  · -- Inv4b
    intro kp hkp
    obtain ⟨k1, k2⟩ := kp
    rw [hloc'] at hkp
    obtain ⟨hmem, hne⟩ := (mem_mapRemove_iff _ _ _).1 hkp
    simp only at hne
    show (mapLookup t'.nodes k1).isSome = true
    have hold := hInv4b (k1, k2) hmem
    rw [hlook k1, if_neg hne]
    by_cases hk1p : k1 = p
    · rw [if_pos hk1p]
      rfl
    · rw [if_neg hk1p]
      exact hold

/-- A fresh tree (root container with empty `order`) satisfies the
invariants. -/
theorem inv_mk_new (c : Container) (hc : c.order = []) :
    Inv (Tree.mk_new c) := by
  refine ⟨?_, ?_, ?_, ?_, ?_⟩
  · show (containerOrderAt (Tree.mk_new c) c.meta.id).isSome = true
    unfold containerOrderAt Tree.mk_new
    rw [mapLookup_cons, if_pos rfl]
    rfl
  · intro kp hkp
    simp [Tree.mk_new] at hkp
  · intro kn hkn id hid
    replace hid : id ∈ Node.childIds kn.2 := hid
    have hkn' : kn = (c.meta.id, Node.container c) := by
      simpa [Tree.mk_new] using hkn
    rw [hkn'] at hid
    simp [Node.childIds, hc] at hid
  · intro kn hkn
    have hkn' : kn = (c.meta.id, Node.container c) := by
      simpa [Tree.mk_new] using hkn
    left
    rw [hkn']
    rfl
  · intro kp hkp
    simp [Tree.mk_new] at hkp

/-- Every good run preserves the invariants. -/
theorem goodRun_inv {t : Tree} {ops : List Op} {t' : Tree}
    (hInv : Inv t) (h : GoodRun t ops t') : Inv t' := by
  induction h with
  | nil => exact hInv
  | add hf hop _ ih => exact ih (inv_add hInv hf hop)
  | remove hch hop _ ih => exact ih (inv_remove hInv hch hop)
  | move hop _ ih => exact ih (inv_move hInv hop)
  | swap hop _ ih => exact ih (inv_swap hInv hop)

/-- C3 counterexample: the three successful calls `add_node(0, A)`,
`add_node(1, E)`, `remove_node(1)` (removing container `A` while its
child `E` is still present) leave a tree where `locations[2] = 1` points
at a node absent from `nodes` — invariant 2 is violated, because
`remove_node` never touches the removed container's children. -/
theorem c3_remove_orphans_counterexample :
    runOps t0 [.add 0 (.container contA), .add 1 (.entry entE),
      .remove 1] = some ((t2.remove_node 1).1) ∧
    ¬ Inv ((t2.remove_node 1).1) :=
  ⟨rfl, by decide⟩

/-- C3 (amended): starting from a freshly constructed tree (a root
container with empty `order`), after any sequence of successful
`add_node`/`remove_node`/`move_node`/`swap_nodes` calls in which every
added node is fresh (its identifier unbound, itself childless) and every
removed node is childless, invariants 1–4 of the data model hold. -/
theorem c3_invariants_preserved (c : Container) (ops : List Op) (t' : Tree)
    (hc : c.order = []) (h : GoodRun (Tree.mk_new c) ops t') : Inv t' :=
  goodRun_inv (inv_mk_new c hc) h

/-- C3 witness: the preservation theorem applied to the concrete run
add entry 1, add entry 2, swap them, move 1 to the front, remove 2 —
the final tree `tEr` satisfies the invariants. -/
theorem c3_invariants_preserved_witness : Inv tEr :=
  c3_invariants_preserved rootC
    [.add 0 (.entry (Entry.mk_new 1 "e1" "")),
      .add 0 (.entry (Entry.mk_new 2 "e2" "")),
      .swap 1 2, .move 1 0, .remove 2] tEr rfl
    (@GoodRun.add (Tree.mk_new rootC) tEa tEr 0
      (.entry (Entry.mk_new 1 "e1" ""))
      [.add 0 (.entry (Entry.mk_new 2 "e2" "")), .swap 1 2, .move 1 0,
        .remove 2]
      (by decide) (by decide)
      (@GoodRun.add tEa tE tEr 0 (.entry (Entry.mk_new 2 "e2" ""))
        [.swap 1 2, .move 1 0, .remove 2] (by decide) (by decide)
        (@GoodRun.swap tE tEs tEr 1 2 [.move 1 0, .remove 2] (by decide)
          (@GoodRun.move tEs tEm tEr 1 0 [.remove 2] (by decide)
            (@GoodRun.remove tEm tEr tEr 2 [] (by decide) (by decide)
              (GoodRun.nil tEr))))))

end Checklist
